import Mathlib

/-!
Shallow embedding of the Polymarket arbitrage scanner core
(`src/polymarket/models.py`, `src/polymarket/api.py`,
`src/polymarket/scanner.py`, `config/scanner.py`).

Prices and sizes are modelled as rationals; Python exceptions are modelled
with `Except PyErr`; Python dicts with string keys are modelled as
insertion-ordered association lists.
-/

/-- Python exception kinds that the embedded code can raise. -/
inductive PyErr where
  | keyError
  | valueError
  | typeError
  | indexError
deriving DecidableEq

/-- One entry of a raw order-book ladder (a Python `dict[str, str]`).
A field is `none` when its key is absent from the dict; a present key holds
the outcome of Python `float(...)` applied to its string value: `none` when
the string is unparsable (so `float` raises `ValueError`), `some q` when it
parses to the number `q`. -/
structure RawEntry where
  price : Option (Option ℚ) := none
  size : Option (Option ℚ) := none
deriving DecidableEq

/-- A ladder entry with present, parsable price and size (the common case:
the CLOB API sends `{"price": "...", "size": "..."}` with numeric strings). -/
def RawEntry.ofPair (p s : ℚ) : RawEntry :=
  { price := some (some p), size := some (some s) }

/-- An entry is well formed when both `price` and `size` keys are present and
their strings parse — the spec's data model, where each ladder entry is a
(price, size) pair of numbers. -/
def RawEntry.wf (e : RawEntry) : Bool :=
  (match e.price with | some (some _) => true | _ => false) &&
  (match e.size with | some (some _) => true | _ => false)

/-- The `OrderBook` dataclass of `models.py`: two ladders of raw entries and
a token id. -/
structure OrderBook where
  bids : List RawEntry
  asks : List RawEntry
  token_id : String
deriving DecidableEq

/-- All ladder entries of the book are well formed. -/
def OrderBook.wf (b : OrderBook) : Bool :=
  b.bids.all RawEntry.wf && b.asks.all RawEntry.wf

/-- `OrderBook.best_bid`: `float(self.bids[0]["price"])` when bids exist,
`None` when the bid ladder is empty. A first entry without a `price` key
raises `KeyError`; an unparsable price string raises `ValueError`. -/
def OrderBook.best_bid (b : OrderBook) : Except PyErr (Option ℚ) :=
  match b.bids with
  | [] => .ok none
  | e :: _ =>
    match e.price with
    | none => .error .keyError
    | some none => .error .valueError
    | some (some q) => .ok (some q)

/-- `OrderBook.best_ask`: `float(self.asks[0]["price"])` when asks exist,
`None` when the ask ladder is empty. -/
def OrderBook.best_ask (b : OrderBook) : Except PyErr (Option ℚ) :=
  match b.asks with
  | [] => .ok none
  | e :: _ =>
    match e.price with
    | none => .error .keyError
    | some none => .error .valueError
    | some (some q) => .ok (some q)

/-- `OrderBook.best_bid_size`: `float(self.bids[0]["size"])` when bids exist,
`None` when the bid ladder is empty. -/
def OrderBook.best_bid_size (b : OrderBook) : Except PyErr (Option ℚ) :=
  match b.bids with
  | [] => .ok none
  | e :: _ =>
    match e.size with
    | none => .error .keyError
    | some none => .error .valueError
    | some (some q) => .ok (some q)

/-- `OrderBook.best_ask_size`: `float(self.asks[0]["size"])` when asks exist,
`None` when the ask ladder is empty. -/
def OrderBook.best_ask_size (b : OrderBook) : Except PyErr (Option ℚ) :=
  match b.asks with
  | [] => .ok none
  | e :: _ =>
    match e.size with
    | none => .error .keyError
    | some none => .error .valueError
    | some (some q) => .ok (some q)

/-- Sort key of `OrderBook.__post_init__`: models
`float(entry.get("price", "0"))`. A missing `price` key defaults to the
string `"0"` (which parses to 0); a present but unparsable price string makes
`float` raise `ValueError`. -/
def priceSortKey (e : RawEntry) : Except PyErr ℚ :=
  match e.price with
  | none => .ok 0
  | some none => .error .valueError
  | some (some q) => .ok q

/-- The numeric value `priceSortKey` yields when it does not raise (the
missing-key default 0, or the parsed price). -/
def priceKeyVal (e : RawEntry) : ℚ :=
  match e.price with
  | some (some q) => q
  | _ => 0

/-- Python `sorted(l, key=k)` (ascending, stable): every key is computed
first — propagating the first exception, as `sorted` does — then the list is
stable-sorted by key. -/
def pySortedBy (k : RawEntry → Except PyErr ℚ) (l : List RawEntry) :
    Except PyErr (List RawEntry) := do
  let tagged ← l.mapM (fun e => do pure ((← k e), e))
  pure ((tagged.mergeSort (fun a b => decide (a.1 ≤ b.1))).map Prod.snd)

/-- Python `sorted(l, key=k, reverse=True)` (descending, stable). -/
def pySortedByRev (k : RawEntry → Except PyErr ℚ) (l : List RawEntry) :
    Except PyErr (List RawEntry) := do
  let tagged ← l.mapM (fun e => do pure ((← k e), e))
  pure ((tagged.mergeSort (fun a b => decide (b.1 ≤ a.1))).map Prod.snd)

/-- Constructing `OrderBook(bids, asks, token_id)`: `__post_init__` sorts
bids descending and asks ascending by `float(entry.get("price", "0"))`,
so the result is either the dataclass after `__post_init__` or the exception
the sort raised.  (The spec calls this constructor `fromRaw`.) -/
def OrderBook.fromRaw (bids asks : List RawEntry) (token_id : String) :
    Except PyErr OrderBook := do
  let sortedBids ← pySortedByRev priceSortKey bids
  let sortedAsks ← pySortedBy priceSortKey asks
  pure { bids := sortedBids, asks := sortedAsks, token_id := token_id }

/-- One outcome token of a market: the `{"token_id": ..., "outcome": ...}`
dict built by `Market.from_gamma_response`. -/
structure Token where
  token_id : String
  outcome : String
deriving DecidableEq

/-- The `Market` dataclass of `models.py`. -/
structure Market where
  condition_id : String
  question : String
  slug : String
  tokens : List Token
  active : Bool
  volume : ℚ
  event_slug : String := ""
deriving DecidableEq

/-- The `Opportunity` dataclass of `models.py`. -/
structure Opportunity where
  market_question : String
  arb_type : String
  profit_pct : ℚ
  max_size : ℚ
  max_profit_usd : ℚ
  yes_price : ℚ
  no_price : ℚ
  event_slug : String := ""
  details : String := ""
deriving DecidableEq

/-- `MIN_PROFIT_THRESHOLD` from `config/scanner.py`, at its documented
default `"0.001"` (0.1 percent). -/
def MIN_PROFIT_THRESHOLD : ℚ := 1 / 1000

/-- Fixed-point decimal rendering with banker's rounding, modelling Python's
`f"{x:.4f}"` / `f"{x:.2f}"` format specifiers on the rational value. Used
only to build the human-readable `details` strings. -/
def fmtFixed (dp : ℕ) (q : ℚ) : String :=
  let neg : Bool := decide (q < 0)
  let x : ℚ := |q| * (10 : ℚ) ^ dp
  let fl : ℤ := ⌊x⌋
  let fr : ℚ := x - fl
  let n : ℤ :=
    if fr < 1 / 2 then fl
    else if 1 / 2 < fr then fl + 1
    else if fl % 2 = 0 then fl else fl + 1
  let np : ℕ := n.toNat
  let ip : ℕ := np / 10 ^ dp
  let fp : ℕ := np % 10 ^ dp
  let fps : String := toString fp
  let pad : String := String.mk (List.replicate (dp - fps.length) '0')
  (if neg && n != 0 then "-" else "") ++ toString ip ++
    (if dp = 0 then "" else "." ++ pad ++ fps)

/-- Python `min` over the collected best-size values (each `None` or a
number). An empty sequence makes `min` raise `ValueError`; a `None` among
the values leads to a `TypeError` (in Python either at the `<` comparison,
or just after `min` when the `None` result is multiplied — observationally
the same raise for the enclosing check). -/
def pyMin : List (Option ℚ) → Except PyErr ℚ
  | [] => .error .valueError
  | some q :: rest =>
    rest.foldlM
      (fun acc o =>
        match o with
        | some b => .ok (min acc b)
        | none => .error .typeError)
      q
  | none :: _ => .error .typeError

/-- The `Opportunity` record built by the BUY branch of
`check_binary_arbitrage` (scanner.py lines 52-69). -/
def binaryBuyOpp (market : Market) (ya na ms : ℚ) : Opportunity :=
  { market_question := market.question
    arb_type := "BUY"
    profit_pct := 1 - (ya + na)
    max_size := ms
    max_profit_usd := (1 - (ya + na)) * ms
    yes_price := ya
    no_price := na
    event_slug := market.event_slug
    details :=
      s!"BUY arb: YES ask={fmtFixed 4 ya} + NO ask={fmtFixed 4 na} = {fmtFixed 4 (ya + na)} < 1.0 | profit={fmtFixed 4 (1 - (ya + na))} ({fmtFixed 2 ((1 - (ya + na)) * 100)}%) | max_size={fmtFixed 2 ms} | max_profit=${fmtFixed 2 ((1 - (ya + na)) * ms)}" }

/-- BUY branch of `check_binary_arbitrage` (scanner.py lines 41-75): both
best asks, combined ask strictly below 1.0, profit at least the threshold,
size the minimum of the two best-ask sizes. -/
def binaryBuyOpps (market : Market) (yes_book no_book : OrderBook) :
    Except PyErr (List Opportunity) := do
  let yes_ask ← yes_book.best_ask
  let no_ask ← no_book.best_ask
  match yes_ask, no_ask with
  | some ya, some na =>
    if ya + na < 1 then
      if MIN_PROFIT_THRESHOLD ≤ 1 - (ya + na) then do
        let ys ← yes_book.best_ask_size
        let ns ← no_book.best_ask_size
        let max_size ← pyMin [ys, ns]
        pure [binaryBuyOpp market ya na max_size]
      else pure []
    else pure []
  | _, _ => pure []

/-- The `Opportunity` record built by the SELL branch of
`check_binary_arbitrage` (scanner.py lines 88-105). -/
def binarySellOpp (market : Market) (yb nb ms : ℚ) : Opportunity :=
  { market_question := market.question
    arb_type := "SELL"
    profit_pct := (yb + nb) - 1
    max_size := ms
    max_profit_usd := ((yb + nb) - 1) * ms
    yes_price := yb
    no_price := nb
    event_slug := market.event_slug
    details :=
      s!"SELL arb: YES bid={fmtFixed 4 yb} + NO bid={fmtFixed 4 nb} = {fmtFixed 4 (yb + nb)} > 1.0 | profit={fmtFixed 4 ((yb + nb) - 1)} ({fmtFixed 2 (((yb + nb) - 1) * 100)}%) | max_size={fmtFixed 2 ms} | max_profit=${fmtFixed 2 (((yb + nb) - 1) * ms)}" }

/-- SELL branch of `check_binary_arbitrage` (scanner.py lines 77-111): both
best bids, combined bid strictly above 1.0, profit at least the threshold,
size the minimum of the two best-bid sizes. -/
def binarySellOpps (market : Market) (yes_book no_book : OrderBook) :
    Except PyErr (List Opportunity) := do
  let yes_bid ← yes_book.best_bid
  let no_bid ← no_book.best_bid
  match yes_bid, no_bid with
  | some yb, some nb =>
    if 1 < yb + nb then
      if MIN_PROFIT_THRESHOLD ≤ (yb + nb) - 1 then do
        let ys ← yes_book.best_bid_size
        let ns ← no_book.best_bid_size
        let max_size ← pyMin [ys, ns]
        pure [binarySellOpp market yb nb max_size]
      else pure []
    else pure []
  | _, _ => pure []

/-- `check_binary_arbitrage` (scanner.py lines 20-113): the BUY block runs
first, then the SELL block; both append to one list. -/
def check_binary_arbitrage (market : Market) (yes_book no_book : OrderBook) :
    Except PyErr (List Opportunity) := do
  let buys ← binaryBuyOpps market yes_book no_book
  let sells ← binarySellOpps market yes_book no_book
  pure (buys ++ sells)

/-- Python `all(best(book) is not None for _, book in books)`: evaluates the
given accessor book by book, short-circuiting at the first `None` (so later
books are not touched), and propagating any exception. -/
def allBestSome (best : OrderBook → Except PyErr (Option ℚ)) :
    List (String × OrderBook) → Except PyErr Bool
  | [] => .ok true
  | (_, b) :: rest => do
    match (← best b) with
    | none => .ok false
    | some _ => allBestSome best rest

/-- Python `sum(best(book) for _, book in books)`: left fold from 0. By the
time it runs, the `all(...)` guard has excluded `None` values; a `None`
would make the addition raise `TypeError`. -/
def sumBest (best : OrderBook → Except PyErr (Option ℚ))
    (books : List (String × OrderBook)) : Except PyErr ℚ := do
  let vs ← books.mapM (fun p => best p.2)
  vs.foldlM
    (fun acc o =>
      match o with
      | some q => .ok (acc + q)
      | none => .error .typeError)
    0

/-- The `", ".join(f"{name}={price:.4f}" ...)` audit string of the
multi-outcome checks, over the outcome names and the prices the per-book
accessor returned (all present at this program point thanks to the guard;
the unreachable `None` arm renders the empty string). -/
def outcomeDetails (books : List (String × OrderBook))
    (prices : List (Option ℚ)) : String :=
  String.intercalate ", "
    (((books.map Prod.fst).zip prices).map
      (fun p =>
        match p.2 with
        | some q => s!"{p.1}={fmtFixed 4 q}"
        | none => ""))

/-- The `Opportunity` record built by the BUY branch of
`check_multi_outcome_arbitrage` (scanner.py lines 148-165): note
`yes_price` carries the aggregate ask sum and `no_price` is 0. -/
def multiBuyOpp (market_question event_slug : String) (sumAsks ms : ℚ)
    (od : String) : Opportunity :=
  { market_question := market_question
    arb_type := "MULTI"
    profit_pct := 1 - sumAsks
    max_size := ms
    max_profit_usd := (1 - sumAsks) * ms
    yes_price := sumAsks
    no_price := 0
    event_slug := event_slug
    details :=
      s!"MULTI BUY arb: sum_asks={fmtFixed 4 sumAsks} < 1.0 | outcomes: [{od}] | profit={fmtFixed 4 (1 - sumAsks)} ({fmtFixed 2 ((1 - sumAsks) * 100)}%) | max_size={fmtFixed 2 ms} | max_profit=${fmtFixed 2 ((1 - sumAsks) * ms)}" }

/-- BUY branch of `check_multi_outcome_arbitrage` (scanner.py lines
136-171): skipped entirely unless every outcome has a best ask. -/
def multiBuyOpps (market_question : String)
    (books : List (String × OrderBook)) (event_slug : String) :
    Except PyErr (List Opportunity) := do
  let all_asks_valid ← allBestSome OrderBook.best_ask books
  if all_asks_valid then do
    let sum_of_asks ← sumBest OrderBook.best_ask books
    if sum_of_asks < 1 then
      if MIN_PROFIT_THRESHOLD ≤ 1 - sum_of_asks then do
        let sizes ← books.mapM (fun p => p.2.best_ask_size)
        let max_size ← pyMin sizes
        let prices ← books.mapM (fun p => p.2.best_ask)
        pure [multiBuyOpp market_question event_slug sum_of_asks max_size
          (outcomeDetails books prices)]
      else pure []
    else pure []
  else pure []

/-- The `Opportunity` record built by the SELL branch of
`check_multi_outcome_arbitrage` (scanner.py lines 185-202): note
`no_price` carries the aggregate bid sum and `yes_price` is 0. -/
def multiSellOpp (market_question event_slug : String) (sumBids ms : ℚ)
    (od : String) : Opportunity :=
  { market_question := market_question
    arb_type := "MULTI"
    profit_pct := sumBids - 1
    max_size := ms
    max_profit_usd := (sumBids - 1) * ms
    yes_price := 0
    no_price := sumBids
    event_slug := event_slug
    details :=
      s!"MULTI SELL arb: sum_bids={fmtFixed 4 sumBids} > 1.0 | outcomes: [{od}] | profit={fmtFixed 4 (sumBids - 1)} ({fmtFixed 2 ((sumBids - 1) * 100)}%) | max_size={fmtFixed 2 ms} | max_profit=${fmtFixed 2 ((sumBids - 1) * ms)}" }

/-- SELL branch of `check_multi_outcome_arbitrage` (scanner.py lines
173-208). -/
def multiSellOpps (market_question : String)
    (books : List (String × OrderBook)) (event_slug : String) :
    Except PyErr (List Opportunity) := do
  let all_bids_valid ← allBestSome OrderBook.best_bid books
  if all_bids_valid then do
    let sum_of_bids ← sumBest OrderBook.best_bid books
    if 1 < sum_of_bids then
      if MIN_PROFIT_THRESHOLD ≤ sum_of_bids - 1 then do
        let sizes ← books.mapM (fun p => p.2.best_bid_size)
        let max_size ← pyMin sizes
        let prices ← books.mapM (fun p => p.2.best_bid)
        pure [multiSellOpp market_question event_slug sum_of_bids max_size
          (outcomeDetails books prices)]
      else pure []
    else pure []
  else pure []

/-- `check_multi_outcome_arbitrage` (scanner.py lines 116-210): BUY block,
then SELL block, appending to one list. -/
def check_multi_outcome_arbitrage (market_question : String)
    (books : List (String × OrderBook)) (event_slug : String) :
    Except PyErr (List Opportunity) := do
  let buys ← multiBuyOpps market_question books event_slug
  let sells ← multiSellOpps market_question books event_slug
  pure (buys ++ sells)

/-- Assigning `d[k] = v` in a Python dict (string keys): replaces the value
in place when the key is already present, otherwise appends the new pair
(dicts preserve insertion order). -/
def pyDictInsert (d : List (String × OrderBook)) (k : String)
    (v : OrderBook) : List (String × OrderBook) :=
  if d.any (fun p => p.1 == k) then
    d.map (fun p => if p.1 == k then (k, v) else p)
  else d ++ [(k, v)]

/-- Python `d.get(k)`: the value stored at `k`, or `None`. -/
def pyDictGet (d : List (String × OrderBook)) (k : String) :
    Option OrderBook :=
  (d.find? (fun p => p.1 == k)).map Prod.snd

/-- One step of the dict comprehension of `fetch_orderbooks_batch`: a
successful pair is assigned into the dict, a failed one is dropped. -/
def batchStep (d : List (String × OrderBook)) (r : String × Option OrderBook) :
    List (String × OrderBook) :=
  match r.2 with
  | some ob => pyDictInsert d r.1 ob
  | none => d

/-- `fetch_orderbooks_batch` (api.py lines 113-144). The transport is
abstracted as `fetch`: for the request scheduled at position `i` of
`token_ids`, `fetch i tid` is the `OrderBook` that `fetch_orderbook`
returned, or `none` when it failed (every failure mode of `fetch_orderbook`
is caught there and turned into `None`). `asyncio.gather` keeps the results
in input order; the dict comprehension then keeps only the successful
pairs. -/
def fetch_orderbooks_batch (fetch : ℕ → String → Option OrderBook)
    (token_ids : List String) : List (String × OrderBook) :=
  (token_ids.enum.map (fun p => (p.2, fetch p.1 p.2))).foldl batchStep []

/-- The token-id collection loop of `scan_markets` (scanner.py lines
229-232): all token ids of all markets, in order. -/
def allTokenIds (markets : List Market) : List String :=
  markets.foldl (fun acc m => acc ++ m.tokens.map Token.token_id) []

/-- One iteration of the per-market loop of `scan_markets` (scanner.py
lines 253-302): classify by token count, look up the required books, skip
the market (`continue`) when any is missing, run the matching check and
accumulate the findings. -/
def marketStep (orderbooks : List (String × OrderBook))
    (acc : List Opportunity) (market : Market) :
    Except PyErr (List Opportunity) :=
  if market.tokens.length = 2 then
    match market.tokens with
    | t0 :: t1 :: _ =>
      match pyDictGet orderbooks t0.token_id,
          pyDictGet orderbooks t1.token_id with
      | some yes_book, some no_book => do
        let found ← check_binary_arbitrage market yes_book no_book
        pure (acc ++ found)
      | _, _ => pure acc
    | _ => .error .indexError
  else if 3 ≤ market.tokens.length then
    match market.tokens.mapM
        (fun t => (pyDictGet orderbooks t.token_id).map
          (fun b => (t.outcome, b))) with
    | some books => do
      let found ← check_multi_outcome_arbitrage market.question books
        market.event_slug
      pure (acc ++ found)
    | none => pure acc
  else pure acc

/-- The per-market loop of `scan_markets` (scanner.py lines 251-302):
fold `marketStep` over the markets, starting from the empty accumulator. -/
def collectOpps (orderbooks : List (String × OrderBook))
    (markets : List Market) : Except PyErr (List Opportunity) :=
  markets.foldlM (marketStep orderbooks) []

/-- `opportunities.sort(key=lambda o: o.profit_pct, reverse=True)`
(scanner.py line 305): Python's `list.sort` is stable, so a descending
stable merge sort under the profit-greater-or-equal comparison is exactly
its behaviour. -/
def sortByProfitDesc (l : List Opportunity) : List Opportunity :=
  l.mergeSort (fun a b => decide (b.profit_pct ≤ a.profit_pct))

/-- `scan_markets` (scanner.py lines 213-313): batch-fetch every token's
book, run the per-market loop, sort the findings by profit descending. -/
def scan_markets (fetch : ℕ → String → Option OrderBook)
    (markets : List Market) : Except PyErr (List Opportunity) := do
  let orderbooks := fetch_orderbooks_batch fetch (allTokenIds markets)
  let opportunities ← collectOpps orderbooks markets
  pure (sortByProfitDesc opportunities)

instance {ε α : Type} [DecidableEq ε] [DecidableEq α] : DecidableEq (Except ε α)
  | .ok x, .ok y =>
    if h : x = y then .isTrue (congrArg Except.ok h)
    else .isFalse (fun hc => h (Except.ok.inj hc))
  | .error x, .error y =>
    if h : x = y then .isTrue (congrArg Except.error h)
    else .isFalse (fun hc => h (Except.error.inj hc))
  | .ok _, .error _ => .isFalse nofun
  | .error _, .ok _ => .isFalse nofun

theorem ok_bind {ε α β : Type} (a : α) (f : α → Except ε β) :
    (Except.ok a >>= f) = f a := rfl

theorem error_bind {ε α β : Type} (e : ε) (f : α → Except ε β) :
    ((Except.error e : Except ε α) >>= f) = Except.error e := rfl

theorem RawEntry.wf_fields {e : RawEntry} (h : e.wf = true) :
    ∃ q s, e.price = some (some q) ∧ e.size = some (some s) := by
  rcases e with ⟨p, s⟩
  rcases p with _ | (_ | q)
  · simp [RawEntry.wf] at h
  · simp [RawEntry.wf] at h
  rcases s with _ | (_ | s)
  · simp [RawEntry.wf] at h
  · simp [RawEntry.wf] at h
  exact ⟨q, s, rfl, rfl⟩

theorem OrderBook.wf_bids {b : OrderBook} (h : b.wf = true) :
    ∀ e ∈ b.bids, e.wf = true := by
  have := (Bool.and_eq_true _ _).mp h
  exact fun e he => List.all_eq_true.mp this.1 e he

theorem OrderBook.wf_asks {b : OrderBook} (h : b.wf = true) :
    ∀ e ∈ b.asks, e.wf = true := by
  have := (Bool.and_eq_true _ _).mp h
  exact fun e he => List.all_eq_true.mp this.2 e he

theorem best_ask_of_wf {b : OrderBook} (h : b.wf = true) :
    (b.asks = [] ∧ b.best_ask = .ok none ∧ b.best_ask_size = .ok none) ∨
    (∃ e rest q s, b.asks = e :: rest ∧ e.price = some (some q) ∧
      e.size = some (some s) ∧
      b.best_ask = .ok (some q) ∧ b.best_ask_size = .ok (some s)) := by
  cases hk : b.asks with
  | nil =>
    exact Or.inl ⟨rfl, by simp [OrderBook.best_ask, hk],
      by simp [OrderBook.best_ask_size, hk]⟩
  | cons e rest =>
    have hwfe : e.wf = true := OrderBook.wf_asks h e (by rw [hk]; exact List.mem_cons_self e rest)
    obtain ⟨q, s, hq, hs⟩ := RawEntry.wf_fields hwfe
    exact Or.inr ⟨e, rest, q, s, rfl,
      hq, hs,
      by simp [OrderBook.best_ask, hk, hq],
      by simp [OrderBook.best_ask_size, hk, hs]⟩

theorem best_bid_of_wf {b : OrderBook} (h : b.wf = true) :
    (b.bids = [] ∧ b.best_bid = .ok none ∧ b.best_bid_size = .ok none) ∨
    (∃ e rest q s, b.bids = e :: rest ∧ e.price = some (some q) ∧
      e.size = some (some s) ∧
      b.best_bid = .ok (some q) ∧ b.best_bid_size = .ok (some s)) := by
  cases hk : b.bids with
  | nil =>
    exact Or.inl ⟨rfl, by simp [OrderBook.best_bid, hk],
      by simp [OrderBook.best_bid_size, hk]⟩
  | cons e rest =>
    have hwfe : e.wf = true := OrderBook.wf_bids h e (by rw [hk]; exact List.mem_cons_self e rest)
    obtain ⟨q, s, hq, hs⟩ := RawEntry.wf_fields hwfe
    exact Or.inr ⟨e, rest, q, s, rfl,
      hq, hs,
      by simp [OrderBook.best_bid, hk, hq],
      by simp [OrderBook.best_bid_size, hk, hs]⟩

theorem best_ask_isOk_of_wf {b : OrderBook} (h : b.wf = true) :
    ∃ v, b.best_ask = .ok v := by
  rcases best_ask_of_wf h with ⟨_, hv, _⟩ | ⟨_, _, q, _, _, _, _, hv, _⟩
  · exact ⟨none, hv⟩
  · exact ⟨some q, hv⟩

theorem best_bid_isOk_of_wf {b : OrderBook} (h : b.wf = true) :
    ∃ v, b.best_bid = .ok v := by
  rcases best_bid_of_wf h with ⟨_, hv, _⟩ | ⟨_, _, q, _, _, _, _, hv, _⟩
  · exact ⟨none, hv⟩
  · exact ⟨some q, hv⟩

theorem best_ask_size_of_wf {b : OrderBook} (h : b.wf = true) {q : ℚ}
    (hq : b.best_ask = .ok (some q)) : ∃ s, b.best_ask_size = .ok (some s) := by
  rcases best_ask_of_wf h with ⟨_, hv, _⟩ | ⟨_, _, _, s, _, _, _, _, hs⟩
  · rw [hv] at hq; cases hq
  · exact ⟨s, hs⟩

theorem best_bid_size_of_wf {b : OrderBook} (h : b.wf = true) {q : ℚ}
    (hq : b.best_bid = .ok (some q)) : ∃ s, b.best_bid_size = .ok (some s) := by
  rcases best_bid_of_wf h with ⟨_, hv, _⟩ | ⟨_, _, _, s, _, _, _, _, hs⟩
  · rw [hv] at hq; cases hq
  · exact ⟨s, hs⟩

theorem pyMin_pair (a b : ℚ) : pyMin [some a, some b] = .ok (min a b) := rfl

theorem binaryBuyOpps_eq (market : Market) {yb nb : OrderBook} {ya na s1 s2 : ℚ}
    (hya : yb.best_ask = .ok (some ya)) (hna : nb.best_ask = .ok (some na))
    (hs1 : yb.best_ask_size = .ok (some s1))
    (hs2 : nb.best_ask_size = .ok (some s2)) :
    binaryBuyOpps market yb nb =
      .ok (if ya + na < 1 ∧ MIN_PROFIT_THRESHOLD ≤ 1 - (ya + na)
        then [binaryBuyOpp market ya na (min s1 s2)] else []) := by
  unfold binaryBuyOpps
  rw [hya, ok_bind, hna, ok_bind]
  dsimp only
  by_cases h1 : ya + na < 1
  · by_cases h2 : MIN_PROFIT_THRESHOLD ≤ 1 - (ya + na)
    · rw [if_pos h1, if_pos h2, hs1, ok_bind, hs2, ok_bind, pyMin_pair, ok_bind,
        if_pos ⟨h1, h2⟩]
      rfl
    · rw [if_pos h1, if_neg h2, if_neg (fun hc => h2 hc.2)]
      rfl
  · rw [if_neg h1, if_neg (fun hc => h1 hc.1)]
    rfl

theorem binaryBuyOpps_absent (market : Market) {yb nb : OrderBook}
    {v1 v2 : Option ℚ}
    (h1 : yb.best_ask = .ok v1) (h2 : nb.best_ask = .ok v2)
    (habs : v1 = none ∨ v2 = none) :
    binaryBuyOpps market yb nb = .ok [] := by
  unfold binaryBuyOpps
  rw [h1, ok_bind, h2, ok_bind]
  rcases habs with h | h <;> subst h
  · cases v2 <;> rfl
  · cases v1 <;> rfl

theorem binarySellOpps_eq (market : Market) {yb nb : OrderBook} {y n s1 s2 : ℚ}
    (hy : yb.best_bid = .ok (some y)) (hn : nb.best_bid = .ok (some n))
    (hs1 : yb.best_bid_size = .ok (some s1))
    (hs2 : nb.best_bid_size = .ok (some s2)) :
    binarySellOpps market yb nb =
      .ok (if 1 < y + n ∧ MIN_PROFIT_THRESHOLD ≤ (y + n) - 1
        then [binarySellOpp market y n (min s1 s2)] else []) := by
  unfold binarySellOpps
  rw [hy, ok_bind, hn, ok_bind]
  dsimp only
  by_cases h1 : 1 < y + n
  · by_cases h2 : MIN_PROFIT_THRESHOLD ≤ (y + n) - 1
    · rw [if_pos h1, if_pos h2, hs1, ok_bind, hs2, ok_bind, pyMin_pair, ok_bind,
        if_pos ⟨h1, h2⟩]
      rfl
    · rw [if_pos h1, if_neg h2, if_neg (fun hc => h2 hc.2)]
      rfl
  · rw [if_neg h1, if_neg (fun hc => h1 hc.1)]
    rfl

theorem binarySellOpps_absent (market : Market) {yb nb : OrderBook}
    {v1 v2 : Option ℚ}
    (h1 : yb.best_bid = .ok v1) (h2 : nb.best_bid = .ok v2)
    (habs : v1 = none ∨ v2 = none) :
    binarySellOpps market yb nb = .ok [] := by
  unfold binarySellOpps
  rw [h1, ok_bind, h2, ok_bind]
  rcases habs with h | h <;> subst h
  · cases v2 <;> rfl
  · cases v1 <;> rfl

theorem check_binary_eq {market : Market} {yb nb : OrderBook}
    {l1 l2 : List Opportunity}
    (h1 : binaryBuyOpps market yb nb = .ok l1)
    (h2 : binarySellOpps market yb nb = .ok l2) :
    check_binary_arbitrage market yb nb = .ok (l1 ++ l2) := by
  unfold check_binary_arbitrage
  rw [h1, ok_bind, h2, ok_bind]
  rfl

theorem mapM_ok {α β : Type} {f : α → Except PyErr β} {g : α → β} :
    ∀ {l : List α}, (∀ a ∈ l, f a = .ok (g a)) → l.mapM f = .ok (l.map g) := by
  intro l
  induction l with
  | nil => intro _; rfl
  | cons a t ih =>
    intro h
    rw [List.mapM_cons, h a (List.mem_cons_self a t), ok_bind,
      ih (fun x hx => h x (List.mem_cons_of_mem a hx)), ok_bind]
    rfl

theorem allBestSome_true {best : OrderBook → Except PyErr (Option ℚ)} :
    ∀ {books : List (String × OrderBook)},
      (∀ p ∈ books, ∃ q, best p.2 = .ok (some q)) →
      allBestSome best books = .ok true := by
  intro books
  induction books with
  | nil => intro _; rfl
  | cons hd t ih =>
    intro h
    obtain ⟨q, hq⟩ := h hd (List.mem_cons_self hd t)
    rcases hd with ⟨n, b⟩
    unfold allBestSome
    rw [hq, ok_bind]
    exact ih (fun x hx => h x (List.mem_cons_of_mem _ hx))

theorem allBestSome_false {best : OrderBook → Except PyErr (Option ℚ)} :
    ∀ {books : List (String × OrderBook)},
      (∀ p ∈ books, ∃ v, best p.2 = .ok v) →
      (∃ p ∈ books, best p.2 = .ok none) →
      allBestSome best books = .ok false := by
  intro books
  induction books with
  | nil => rintro _ ⟨p, hp, _⟩; cases hp
  | cons hd t ih =>
    rintro hok ⟨p, hp, hpnone⟩
    obtain ⟨v, hv⟩ := hok hd (List.mem_cons_self hd t)
    rcases hd with ⟨n, b⟩
    unfold allBestSome
    rw [hv, ok_bind]
    cases v with
    | none => rfl
    | some q =>
      dsimp only
      rcases List.mem_cons.mp hp with rfl | hpt
      · rw [hv] at hpnone; cases hpnone
      · exact ih (fun x hx => hok x (List.mem_cons_of_mem _ hx)) ⟨p, hpt, hpnone⟩

theorem foldlM_add_somes :
    ∀ (l : List ℚ) (acc : ℚ),
      List.foldlM
        (fun acc o =>
          match o with
          | some q => Except.ok (acc + q)
          | none => Except.error PyErr.typeError)
        acc (l.map some) = .ok (acc + l.sum) := by
  intro l
  induction l with
  | nil =>
    intro acc
    show Except.ok acc = Except.ok (acc + ([] : List ℚ).sum)
    simp
  | cons q t ih =>
    intro acc
    rw [List.map_cons, List.foldlM_cons]
    dsimp only
    rw [ok_bind, ih (acc + q)]
    simp [add_assoc]

theorem sumBest_eq {best : OrderBook → Except PyErr (Option ℚ)}
    {books : List (String × OrderBook)} {aval : String × OrderBook → ℚ}
    (h : ∀ p ∈ books, best p.2 = .ok (some (aval p))) :
    sumBest best books = .ok ((books.map aval).sum) := by
  unfold sumBest
  rw [mapM_ok (g := fun p => some (aval p)) h, ok_bind]
  have : books.map (fun p => some (aval p)) = (books.map aval).map some := by
    rw [List.map_map]; rfl
  rw [this, foldlM_add_somes]
  simp

theorem foldlM_min_somes :
    ∀ (l : List ℚ) (acc : ℚ),
      List.foldlM
        (fun acc o =>
          match o with
          | some b => Except.ok (min acc b)
          | none => Except.error PyErr.typeError)
        acc (l.map some) = .ok (l.foldl min acc) := by
  intro l
  induction l with
  | nil => intro acc; rfl
  | cons q t ih =>
    intro acc
    rw [List.map_cons, List.foldlM_cons]
    dsimp only
    rw [ok_bind, ih (min acc q)]
    rfl

theorem pyMin_somes (a : ℚ) (t : List ℚ) :
    pyMin ((a :: t).map some) = .ok (t.foldl min a) := by
  rw [List.map_cons]
  unfold pyMin
  exact foldlM_min_somes t a

theorem foldl_min_mem : ∀ (t : List ℚ) (a : ℚ), t.foldl min a ∈ a :: t := by
  intro t
  induction t with
  | nil => intro a; simp
  | cons b t ih =>
    intro a
    have h := ih (min a b)
    rw [List.foldl_cons]
    rcases List.mem_cons.mp h with he | ht
    · rw [he]
      rcases min_choice a b with hm | hm <;> rw [hm]
      · exact List.mem_cons_self a (b :: t)
      · exact List.mem_cons_of_mem a (List.mem_cons_self b t)
    · exact List.mem_cons_of_mem a (List.mem_cons_of_mem b ht)

theorem foldl_min_le :
    ∀ (t : List ℚ) (a x : ℚ), x ∈ a :: t → t.foldl min a ≤ x := by
  intro t
  induction t with
  | nil =>
    intro a x hx
    rcases List.mem_cons.mp hx with he | h
    · simp [he]
    · cases h
  | cons b t ih =>
    intro a x hx
    rw [List.foldl_cons]
    have hmin : t.foldl min (min a b) ≤ min a b :=
      ih (min a b) (min a b) (List.mem_cons_self _ _)
    rcases List.mem_cons.mp hx with he | hx1
    · rw [he]; exact le_trans hmin (min_le_left a b)
    rcases List.mem_cons.mp hx1 with he | hx2
    · rw [he]; exact le_trans hmin (min_le_right a b)
    · exact ih (min a b) x (List.mem_cons_of_mem _ hx2)

theorem multiBuyOpps_eq {q s : String} {b0 : String × OrderBook}
    {bs : List (String × OrderBook)} {aval sval : String × OrderBook → ℚ}
    (ha : ∀ p ∈ b0 :: bs, p.2.best_ask = .ok (some (aval p)))
    (hs : ∀ p ∈ b0 :: bs, p.2.best_ask_size = .ok (some (sval p))) :
    multiBuyOpps q (b0 :: bs) s =
      .ok (if ((b0 :: bs).map aval).sum < 1 ∧
          MIN_PROFIT_THRESHOLD ≤ 1 - ((b0 :: bs).map aval).sum
        then [multiBuyOpp q s (((b0 :: bs).map aval).sum)
          ((bs.map sval).foldl min (sval b0))
          (outcomeDetails (b0 :: bs) ((b0 :: bs).map (fun p => some (aval p))))]
        else []) := by
  unfold multiBuyOpps
  rw [allBestSome_true (fun p hp => ⟨aval p, ha p hp⟩), ok_bind]
  rw [if_pos rfl]
  rw [sumBest_eq ha, ok_bind]
  by_cases h1 : ((b0 :: bs).map aval).sum < 1
  · by_cases h2 : MIN_PROFIT_THRESHOLD ≤ 1 - ((b0 :: bs).map aval).sum
    · rw [if_pos h1, if_pos h2]
      rw [mapM_ok (g := fun p => some (sval p)) hs, ok_bind]
      have hms : (b0 :: bs).map (fun p => some (sval p)) =
          ((b0 :: bs).map sval).map some := by
        rw [List.map_map]; rfl
      rw [hms, List.map_cons, pyMin_somes, ok_bind]
      rw [mapM_ok (g := fun p => some (aval p)) ha, ok_bind]
      rw [if_pos ⟨h1, h2⟩]
      rfl
    · rw [if_pos h1, if_neg h2, if_neg (fun hc => h2 hc.2)]
      rfl
  · rw [if_neg h1, if_neg (fun hc => h1 hc.1)]
    rfl

theorem multiBuyOpps_skip {q s : String} {books : List (String × OrderBook)}
    (hok : ∀ p ∈ books, ∃ v, p.2.best_ask = .ok v)
    (habs : ∃ p ∈ books, p.2.best_ask = .ok none) :
    multiBuyOpps q books s = .ok [] := by
  unfold multiBuyOpps
  rw [allBestSome_false hok habs, ok_bind]
  rfl

theorem multiSellOpps_eq {q s : String} {b0 : String × OrderBook}
    {bs : List (String × OrderBook)} {bval szval : String × OrderBook → ℚ}
    (hb : ∀ p ∈ b0 :: bs, p.2.best_bid = .ok (some (bval p)))
    (hs : ∀ p ∈ b0 :: bs, p.2.best_bid_size = .ok (some (szval p))) :
    multiSellOpps q (b0 :: bs) s =
      .ok (if 1 < ((b0 :: bs).map bval).sum ∧
          MIN_PROFIT_THRESHOLD ≤ ((b0 :: bs).map bval).sum - 1
        then [multiSellOpp q s (((b0 :: bs).map bval).sum)
          ((bs.map szval).foldl min (szval b0))
          (outcomeDetails (b0 :: bs) ((b0 :: bs).map (fun p => some (bval p))))]
        else []) := by
  unfold multiSellOpps
  rw [allBestSome_true (fun p hp => ⟨bval p, hb p hp⟩), ok_bind]
  rw [if_pos rfl]
  rw [sumBest_eq hb, ok_bind]
  by_cases h1 : 1 < ((b0 :: bs).map bval).sum
  · by_cases h2 : MIN_PROFIT_THRESHOLD ≤ ((b0 :: bs).map bval).sum - 1
    · rw [if_pos h1, if_pos h2]
      rw [mapM_ok (g := fun p => some (szval p)) hs, ok_bind]
      have hms : (b0 :: bs).map (fun p => some (szval p)) =
          ((b0 :: bs).map szval).map some := by
        rw [List.map_map]; rfl
      rw [hms, List.map_cons, pyMin_somes, ok_bind]
      rw [mapM_ok (g := fun p => some (bval p)) hb, ok_bind]
      rw [if_pos ⟨h1, h2⟩]
      rfl
    · rw [if_pos h1, if_neg h2, if_neg (fun hc => h2 hc.2)]
      rfl
  · rw [if_neg h1, if_neg (fun hc => h1 hc.1)]
    rfl

theorem multiSellOpps_skip {q s : String} {books : List (String × OrderBook)}
    (hok : ∀ p ∈ books, ∃ v, p.2.best_bid = .ok v)
    (habs : ∃ p ∈ books, p.2.best_bid = .ok none) :
    multiSellOpps q books s = .ok [] := by
  unfold multiSellOpps
  rw [allBestSome_false hok habs, ok_bind]
  rfl

theorem check_multi_eq {q s : String} {books : List (String × OrderBook)}
    {l1 l2 : List Opportunity}
    (h1 : multiBuyOpps q books s = .ok l1)
    (h2 : multiSellOpps q books s = .ok l2) :
    check_multi_outcome_arbitrage q books s = .ok (l1 ++ l2) := by
  unfold check_multi_outcome_arbitrage
  rw [h1, ok_bind, h2, ok_bind]
  rfl

theorem multiBuy_fields {q s : String} {books : List (String × OrderBook)}
    {aval : String × OrderBook → ℚ} {l : List Opportunity}
    (ha : ∀ p ∈ books, p.2.best_ask = .ok (some (aval p)))
    (hl : multiBuyOpps q books s = .ok l) :
    ∀ o ∈ l, o.arb_type = "MULTI" ∧ o.yes_price = (books.map aval).sum ∧
      o.no_price = 0 := by
  unfold multiBuyOpps at hl
  rw [allBestSome_true (fun p hp => ⟨aval p, ha p hp⟩), ok_bind, if_pos rfl,
    sumBest_eq ha, ok_bind] at hl
  by_cases h1 : (books.map aval).sum < 1
  · rw [if_pos h1] at hl
    by_cases h2 : MIN_PROFIT_THRESHOLD ≤ 1 - (books.map aval).sum
    · rw [if_pos h2] at hl
      cases hm : books.mapM (fun p => p.2.best_ask_size) with
      | error e => rw [hm, error_bind] at hl; cases hl
      | ok sizes =>
        rw [hm, ok_bind] at hl
        cases hp : pyMin sizes with
        | error e => rw [hp, error_bind] at hl; cases hl
        | ok m =>
          rw [hp, ok_bind] at hl
          rw [mapM_ok (g := fun p => some (aval p)) ha, ok_bind] at hl
          have hleq := Except.ok.inj hl
          intro o ho
          rw [← hleq] at ho
          have := List.mem_singleton.mp ho
          subst this
          exact ⟨rfl, rfl, rfl⟩
    · rw [if_neg h2] at hl
      have hleq := Except.ok.inj hl
      intro o ho
      rw [← hleq] at ho
      cases ho
  · rw [if_neg h1] at hl
    have hleq := Except.ok.inj hl
    intro o ho
    rw [← hleq] at ho
    cases ho

theorem multiSell_fields {q s : String} {books : List (String × OrderBook)}
    {bval : String × OrderBook → ℚ} {l : List Opportunity}
    (hb : ∀ p ∈ books, p.2.best_bid = .ok (some (bval p)))
    (hl : multiSellOpps q books s = .ok l) :
    ∀ o ∈ l, o.arb_type = "MULTI" ∧ o.no_price = (books.map bval).sum ∧
      o.yes_price = 0 := by
  unfold multiSellOpps at hl
  rw [allBestSome_true (fun p hp => ⟨bval p, hb p hp⟩), ok_bind, if_pos rfl,
    sumBest_eq hb, ok_bind] at hl
  by_cases h1 : 1 < (books.map bval).sum
  · rw [if_pos h1] at hl
    by_cases h2 : MIN_PROFIT_THRESHOLD ≤ (books.map bval).sum - 1
    · rw [if_pos h2] at hl
      cases hm : books.mapM (fun p => p.2.best_bid_size) with
      | error e => rw [hm, error_bind] at hl; cases hl
      | ok sizes =>
        rw [hm, ok_bind] at hl
        cases hp : pyMin sizes with
        | error e => rw [hp, error_bind] at hl; cases hl
        | ok m =>
          rw [hp, ok_bind] at hl
          rw [mapM_ok (g := fun p => some (bval p)) hb, ok_bind] at hl
          have hleq := Except.ok.inj hl
          intro o ho
          rw [← hleq] at ho
          have := List.mem_singleton.mp ho
          subst this
          exact ⟨rfl, rfl, rfl⟩
    · rw [if_neg h2] at hl
      have hleq := Except.ok.inj hl
      intro o ho
      rw [← hleq] at ho
      cases ho
  · rw [if_neg h1] at hl
    have hleq := Except.ok.inj hl
    intro o ho
    rw [← hleq] at ho
    cases ho

theorem pyDictInsert_fresh {d : List (String × OrderBook)} {k : String}
    (v : OrderBook) (h : k ∉ d.map Prod.fst) :
    pyDictInsert d k v = d ++ [(k, v)] := by
  unfold pyDictInsert
  rw [if_neg]
  intro hc
  obtain ⟨p, hp, hpk⟩ := List.any_eq_true.mp hc
  exact h (List.mem_map.mpr ⟨p, hp, eq_of_beq hpk⟩)

theorem pyDictInsert_keys (d : List (String × OrderBook)) (k : String)
    (v : OrderBook) :
    (pyDictInsert d k v).map Prod.fst =
      if d.any (fun p => p.1 == k) then d.map Prod.fst
      else d.map Prod.fst ++ [k] := by
  unfold pyDictInsert
  split
  case isTrue h =>
    rw [List.map_map]
    apply List.map_congr_left
    intro p _
    by_cases hpk : p.1 == k
    · simp only [Function.comp, if_pos hpk]
      exact (eq_of_beq hpk).symm
    · simp only [Function.comp, if_neg hpk]
  case isFalse h =>
    rw [List.map_append]
    rfl

theorem pyDictInsert_keys_nodup {d : List (String × OrderBook)} {k : String}
    (v : OrderBook) (h : (d.map Prod.fst).Nodup) :
    ((pyDictInsert d k v).map Prod.fst).Nodup := by
  rw [pyDictInsert_keys]
  split
  case isTrue _ => exact h
  case isFalse hna =>
    rw [List.nodup_append]
    refine ⟨h, List.nodup_singleton k, ?_⟩
    intro a ha hak
    rw [List.mem_singleton.mp hak] at ha
    apply hna
    obtain ⟨p, hp, hpk⟩ := List.mem_map.mp ha
    exact List.any_eq_true.mpr ⟨p, hp, beq_iff_eq.mpr hpk⟩

theorem pyDictInsert_mem {d : List (String × OrderBook)} {k : String}
    {v : OrderBook} {kv : String × OrderBook}
    (h : kv ∈ pyDictInsert d k v) : kv ∈ d ∨ kv.1 = k := by
  unfold pyDictInsert at h
  split at h
  · obtain ⟨p, hp, hpe⟩ := List.mem_map.mp h
    by_cases hpk : p.1 == k
    · rw [if_pos hpk] at hpe
      right
      rw [← hpe]
    · rw [if_neg hpk] at hpe
      left
      rw [← hpe]
      exact hp
  · rcases List.mem_append.mp h with hd | hs
    · exact Or.inl hd
    · right
      rw [List.mem_singleton.mp hs]

theorem foldl_batchStep_keys_nodup :
    ∀ (results : List (String × Option OrderBook))
      (d : List (String × OrderBook)),
      (d.map Prod.fst).Nodup →
      ((results.foldl batchStep d).map Prod.fst).Nodup := by
  intro results
  induction results with
  | nil => intro d h; exact h
  | cons r rs ih =>
    intro d h
    rw [List.foldl_cons]
    apply ih
    rcases r with ⟨k, o⟩
    cases o with
    | none => exact h
    | some ob => exact pyDictInsert_keys_nodup ob h

theorem foldl_batchStep_mem :
    ∀ (results : List (String × Option OrderBook))
      (d : List (String × OrderBook)) (kv : String × OrderBook),
      kv ∈ results.foldl batchStep d →
      kv ∈ d ∨ kv.1 ∈ results.map Prod.fst := by
  intro results
  induction results with
  | nil => intro d kv h; exact Or.inl h
  | cons r rs ih =>
    intro d kv h
    rw [List.foldl_cons] at h
    rcases ih (batchStep d r) kv h with hd | hks
    · rcases r with ⟨k, o⟩
      cases o with
      | none => exact Or.inl hd
      | some ob =>
        rcases pyDictInsert_mem hd with hd' | hk
        · exact Or.inl hd'
        · exact Or.inr (by rw [List.map_cons, hk]; exact List.mem_cons_self _ _)
    · exact Or.inr (by rw [List.map_cons]; exact List.mem_cons_of_mem _ hks)

theorem foldl_batchStep_fresh :
    ∀ (results : List (String × Option OrderBook))
      (d : List (String × OrderBook)),
      (d.map Prod.fst ++ results.map Prod.fst).Nodup →
      results.foldl batchStep d =
        d ++ results.filterMap (fun r => r.2.map (fun ob => (r.1, ob))) := by
  intro results
  induction results with
  | nil => intro d _; simp
  | cons r rs ih =>
    intro d hnd
    rcases r with ⟨k, o⟩
    rw [List.foldl_cons]
    cases o with
    | none =>
      have hstep : batchStep d (k, none) = d := rfl
      rw [hstep]
      rw [List.filterMap_cons]
      dsimp only [Option.map_none']
      apply ih
      refine List.Nodup.sublist ?_ hnd
      apply List.Sublist.append_left
      rw [List.map_cons]
      exact List.sublist_cons_self _ _
    | some ob =>
      have hstep : batchStep d (k, some ob) = pyDictInsert d k ob := rfl
      rw [hstep]
      have hkfresh : k ∉ d.map Prod.fst := by
        have hdisj := List.disjoint_of_nodup_append hnd
        intro hk
        exact hdisj hk (by rw [List.map_cons]; exact List.mem_cons_self _ _)
      rw [pyDictInsert_fresh ob hkfresh]
      rw [List.filterMap_cons]
      dsimp only [Option.map_some']
      have hnd' : ((d ++ [(k, ob)]).map Prod.fst ++ rs.map Prod.fst).Nodup := by
        rw [List.map_append]
        rw [List.append_assoc]
        have : (List.map Prod.fst [((k : String), ob)] ++ rs.map Prod.fst) =
            k :: rs.map Prod.fst := rfl
        rw [this]
        rw [List.map_cons] at hnd
        exact hnd
      rw [ih (d ++ [(k, ob)]) hnd']
      rw [List.append_assoc]
      rfl

theorem length_filterMap_pairs (results : List (String × Option OrderBook)) :
    (results.filterMap (fun r => r.2.map (fun ob => (r.1, ob)))).length =
      (results.filter (fun r => r.2.isSome)).length := by
  induction results with
  | nil => rfl
  | cons r rs ih =>
    rcases r with ⟨k, o⟩
    cases o with
    | none => simpa using ih
    | some ob => simpa using ih

theorem priceSortKey_eq {e : RawEntry} (h : e.price ≠ some none) :
    priceSortKey e = .ok (priceKeyVal e) := by
  rcases e with ⟨p, s⟩
  rcases p with _ | (_ | q)
  · rfl
  · exact absurd rfl h
  · rfl

theorem pySortedBy_eq {l : List RawEntry} (h : ∀ e ∈ l, e.price ≠ some none) :
    pySortedBy priceSortKey l =
      .ok (((l.map (fun e => (priceKeyVal e, e))).mergeSort
        (fun a b => decide (a.1 ≤ b.1))).map Prod.snd) := by
  unfold pySortedBy
  rw [mapM_ok (g := fun e => (priceKeyVal e, e))
    (fun e he => by rw [priceSortKey_eq (h e he), ok_bind]; rfl), ok_bind]
  rfl

theorem pySortedByRev_eq {l : List RawEntry}
    (h : ∀ e ∈ l, e.price ≠ some none) :
    pySortedByRev priceSortKey l =
      .ok (((l.map (fun e => (priceKeyVal e, e))).mergeSort
        (fun a b => decide (b.1 ≤ a.1))).map Prod.snd) := by
  unfold pySortedByRev
  rw [mapM_ok (g := fun e => (priceKeyVal e, e))
    (fun e he => by rw [priceSortKey_eq (h e he), ok_bind]; rfl), ok_bind]
  rfl

theorem mergeSortTagged_desc_pairwise (l : List RawEntry) :
    (((l.map (fun e => (priceKeyVal e, e))).mergeSort
      (fun a b => decide (b.1 ≤ a.1))).map Prod.snd).Pairwise
      (fun e₁ e₂ => priceKeyVal e₂ ≤ priceKeyVal e₁) := by
  rw [List.pairwise_map]
  have hsorted := @List.sorted_mergeSort (ℚ × RawEntry)
    (fun a b => decide (b.1 ≤ a.1))
    (fun a b c hab hbc =>
      decide_eq_true (le_trans (of_decide_eq_true hbc) (of_decide_eq_true hab)))
    (fun a b => by
      rcases le_total a.1 b.1 with h | h
      · simp [h]
      · simp [h])
    (l.map (fun e => (priceKeyVal e, e)))
  have hmem : ∀ x ∈ (l.map (fun e => (priceKeyVal e, e))).mergeSort
      (fun a b => decide (b.1 ≤ a.1)), x.1 = priceKeyVal x.2 := by
    intro x hx
    have hx' := List.mem_mergeSort.mp hx
    obtain ⟨e, _, he⟩ := List.mem_map.mp hx'
    rw [← he]
  refine List.Pairwise.imp_of_mem ?_ hsorted
  intro a b ha hb hab
  have := of_decide_eq_true hab
  rw [hmem a ha, hmem b hb] at this
  exact this

theorem mergeSortTagged_asc_pairwise (l : List RawEntry) :
    (((l.map (fun e => (priceKeyVal e, e))).mergeSort
      (fun a b => decide (a.1 ≤ b.1))).map Prod.snd).Pairwise
      (fun e₁ e₂ => priceKeyVal e₁ ≤ priceKeyVal e₂) := by
  rw [List.pairwise_map]
  have hsorted := @List.sorted_mergeSort (ℚ × RawEntry)
    (fun a b => decide (a.1 ≤ b.1))
    (fun a b c hab hbc =>
      decide_eq_true (le_trans (of_decide_eq_true hab) (of_decide_eq_true hbc)))
    (fun a b => by
      rcases le_total a.1 b.1 with h | h
      · simp [h]
      · simp [h])
    (l.map (fun e => (priceKeyVal e, e)))
  have hmem : ∀ x ∈ (l.map (fun e => (priceKeyVal e, e))).mergeSort
      (fun a b => decide (a.1 ≤ b.1)), x.1 = priceKeyVal x.2 := by
    intro x hx
    have hx' := List.mem_mergeSort.mp hx
    obtain ⟨e, _, he⟩ := List.mem_map.mp hx'
    rw [← he]
  refine List.Pairwise.imp_of_mem ?_ hsorted
  intro a b ha hb hab
  have := of_decide_eq_true hab
  rw [hmem a ha, hmem b hb] at this
  exact this

theorem mergeSortTagged_perm (l : List RawEntry)
    (le : (ℚ × RawEntry) → (ℚ × RawEntry) → Bool) :
    (((l.map (fun e => (priceKeyVal e, e))).mergeSort le).map Prod.snd).Perm
      l := by
  have hp := List.mergeSort_perm (l.map (fun e => (priceKeyVal e, e))) le
  have := hp.map Prod.snd
  rw [List.map_map] at this
  have hid : Prod.snd ∘ (fun e => ((priceKeyVal e, e) : ℚ × RawEntry)) = id := rfl
  rw [hid, List.map_id] at this
  exact this

/-- A binary example market (two outcome tokens). -/
def exMarket : Market :=
  { condition_id := "cond1", question := "Will it rain?", slug := "will-it-rain",
    tokens := [⟨"ytok", "Yes"⟩, ⟨"ntok", "No"⟩], active := true,
    volume := 50000, event_slug := "rain-event" }

/-- YES book with only an ask 0.45 of size 100. -/
def exYesAsk : OrderBook := ⟨[], [RawEntry.ofPair (45/100) 100], "ytok"⟩

/-- NO book with only an ask 0.50 of size 80. -/
def exNoAsk : OrderBook := ⟨[], [RawEntry.ofPair (50/100) 80], "ntok"⟩

/-- YES book with only a bid 0.55 of size 120. -/
def exYesBid : OrderBook := ⟨[RawEntry.ofPair (55/100) 120], [], "ytok"⟩

/-- NO book with only a bid 0.50 of size 90. -/
def exNoBid : OrderBook := ⟨[RawEntry.ofPair (50/100) 90], [], "ntok"⟩

/-- Three outcome books with asks 0.30 each, sizes 50/60/70. -/
def exBooks : List (String × OrderBook) :=
  [("A", ⟨[], [RawEntry.ofPair (30/100) 50], "t1"⟩),
   ("B", ⟨[], [RawEntry.ofPair (30/100) 60], "t2"⟩),
   ("C", ⟨[], [RawEntry.ofPair (30/100) 70], "t3"⟩)]

/-- YES book for the exact-threshold boundary: ask 0.499 of size 10. -/
def exYesBound : OrderBook := ⟨[], [RawEntry.ofPair (499/1000) 10], "ytok"⟩

/-- NO book for the exact-threshold boundary: ask 0.500 of size 10. -/
def exNoBound : OrderBook := ⟨[], [RawEntry.ofPair (1/2) 10], "ntok"⟩

/-- NO book marginally below the threshold: ask 0.5005 of size 10. -/
def exNoBelow : OrderBook := ⟨[], [RawEntry.ofPair (5005/10000) 10], "ntok"⟩

/-- C1: for every binary market whose two order books both have a best ask,
if the combined ask is strictly below 1.0 and the profit fraction
1 − combined is at least the minimum-profit threshold, the BUY branch of
`check_binary_arbitrage` emits exactly one BUY opportunity whose profit
fraction is 1 − combined, whose size is the minimum of the two best-ask
sizes and whose USD profit is profit times size; with no best ask on either
side, a combined ask not below 1.0, or a profit below the threshold, no BUY
opportunity is emitted. -/
theorem binary_buy_check (market : Market) (yes_book no_book : OrderBook)
    (hwy : yes_book.wf = true) (hwn : no_book.wf = true) :
    (∀ ya na : ℚ, yes_book.best_ask = .ok (some ya) →
      no_book.best_ask = .ok (some na) →
      ((ya + na < 1 → MIN_PROFIT_THRESHOLD ≤ 1 - (ya + na) →
        ∃ s1 s2 : ℚ, yes_book.best_ask_size = .ok (some s1) ∧
          no_book.best_ask_size = .ok (some s2) ∧
          binaryBuyOpps market yes_book no_book =
            .ok [binaryBuyOpp market ya na (min s1 s2)] ∧
          (binaryBuyOpp market ya na (min s1 s2)).arb_type = "BUY" ∧
          (binaryBuyOpp market ya na (min s1 s2)).profit_pct = 1 - (ya + na) ∧
          (binaryBuyOpp market ya na (min s1 s2)).max_size = min s1 s2 ∧
          (binaryBuyOpp market ya na (min s1 s2)).max_profit_usd =
            (1 - (ya + na)) * min s1 s2) ∧
      (¬ (ya + na < 1 ∧ MIN_PROFIT_THRESHOLD ≤ 1 - (ya + na)) →
        binaryBuyOpps market yes_book no_book = .ok []))) ∧
    (∀ v1 v2 : Option ℚ, yes_book.best_ask = .ok v1 →
      no_book.best_ask = .ok v2 → v1 = none ∨ v2 = none →
      binaryBuyOpps market yes_book no_book = .ok []) := by
  constructor
  · intro ya na hya hna
    obtain ⟨s1, hs1⟩ := best_ask_size_of_wf hwy hya
    obtain ⟨s2, hs2⟩ := best_ask_size_of_wf hwn hna
    constructor
    · intro h1 h2
      refine ⟨s1, s2, hs1, hs2, ?_, rfl, rfl, rfl, rfl⟩
      rw [binaryBuyOpps_eq market hya hna hs1 hs2, if_pos ⟨h1, h2⟩]
    · intro hneg
      rw [binaryBuyOpps_eq market hya hna hs1 hs2, if_neg hneg]
  · intro v1 v2 h1 h2 habs
    exact binaryBuyOpps_absent market h1 h2 habs

/-- Witness for C1 at the spec's example: asks 0.45 (size 100) and 0.50
(size 80). -/
theorem binary_buy_check_witness :
    ∃ s1 s2 : ℚ, exYesAsk.best_ask_size = .ok (some s1) ∧
      exNoAsk.best_ask_size = .ok (some s2) ∧
      binaryBuyOpps exMarket exYesAsk exNoAsk =
        .ok [binaryBuyOpp exMarket (45/100) (50/100) (min s1 s2)] ∧
      (binaryBuyOpp exMarket (45/100) (50/100) (min s1 s2)).arb_type = "BUY" ∧
      (binaryBuyOpp exMarket (45/100) (50/100) (min s1 s2)).profit_pct =
        1 - (45/100 + 50/100) ∧
      (binaryBuyOpp exMarket (45/100) (50/100) (min s1 s2)).max_size =
        min s1 s2 ∧
      (binaryBuyOpp exMarket (45/100) (50/100) (min s1 s2)).max_profit_usd =
        (1 - (45/100 + 50/100)) * min s1 s2 :=
  ((binary_buy_check exMarket exYesAsk exNoAsk rfl rfl).1
    (45/100) (50/100) rfl rfl).1 (by norm_num) (by norm_num [MIN_PROFIT_THRESHOLD])

/-- C2: for every binary market whose two order books both have a best bid,
if the combined bid is strictly above 1.0 and the profit fraction is at
least the threshold, the SELL branch of `check_binary_arbitrage` emits
exactly one SELL opportunity with profit combined − 1 and size the minimum
of the two best-bid sizes; an absent best price skips that side without
error, and a fully empty book yields no opportunities and raises nothing. -/
theorem binary_sell_check (market : Market) (yes_book no_book : OrderBook)
    (hwy : yes_book.wf = true) (hwn : no_book.wf = true) :
    (∀ y n : ℚ, yes_book.best_bid = .ok (some y) →
      no_book.best_bid = .ok (some n) →
      ((1 < y + n → MIN_PROFIT_THRESHOLD ≤ (y + n) - 1 →
        ∃ s1 s2 : ℚ, yes_book.best_bid_size = .ok (some s1) ∧
          no_book.best_bid_size = .ok (some s2) ∧
          binarySellOpps market yes_book no_book =
            .ok [binarySellOpp market y n (min s1 s2)] ∧
          (binarySellOpp market y n (min s1 s2)).arb_type = "SELL" ∧
          (binarySellOpp market y n (min s1 s2)).profit_pct = (y + n) - 1 ∧
          (binarySellOpp market y n (min s1 s2)).max_size = min s1 s2) ∧
      (¬ (1 < y + n ∧ MIN_PROFIT_THRESHOLD ≤ (y + n) - 1) →
        binarySellOpps market yes_book no_book = .ok []))) ∧
    (∀ v1 v2 : Option ℚ, yes_book.best_bid = .ok v1 →
      no_book.best_bid = .ok v2 → v1 = none ∨ v2 = none →
      binarySellOpps market yes_book no_book = .ok []) ∧
    (∀ tid : String,
      check_binary_arbitrage market yes_book ⟨[], [], tid⟩ = .ok []) := by
  refine ⟨?_, ?_, ?_⟩
  · intro y n hy hn
    obtain ⟨s1, hs1⟩ := best_bid_size_of_wf hwy hy
    obtain ⟨s2, hs2⟩ := best_bid_size_of_wf hwn hn
    constructor
    · intro h1 h2
      refine ⟨s1, s2, hs1, hs2, ?_, rfl, rfl, rfl⟩
      rw [binarySellOpps_eq market hy hn hs1 hs2, if_pos ⟨h1, h2⟩]
    · intro hneg
      rw [binarySellOpps_eq market hy hn hs1 hs2, if_neg hneg]
  · intro v1 v2 h1 h2 habs
    exact binarySellOpps_absent market h1 h2 habs
  · intro tid
    obtain ⟨va, hva⟩ := best_ask_isOk_of_wf hwy
    obtain ⟨vb, hvb⟩ := best_bid_isOk_of_wf hwy
    have hbuy := binaryBuyOpps_absent market hva
      (show OrderBook.best_ask ⟨[], [], tid⟩ = .ok none from rfl) (Or.inr rfl)
    have hsell := binarySellOpps_absent market hvb
      (show OrderBook.best_bid ⟨[], [], tid⟩ = .ok none from rfl) (Or.inr rfl)
    simpa using check_binary_eq hbuy hsell

/-- Witness for C2 at the spec's example: bids 0.55 (size 120) and 0.50
(size 90), plus the empty-book case. -/
theorem binary_sell_check_witness :
    (∃ s1 s2 : ℚ, exYesBid.best_bid_size = .ok (some s1) ∧
      exNoBid.best_bid_size = .ok (some s2) ∧
      binarySellOpps exMarket exYesBid exNoBid =
        .ok [binarySellOpp exMarket (55/100) (50/100) (min s1 s2)] ∧
      (binarySellOpp exMarket (55/100) (50/100) (min s1 s2)).arb_type =
        "SELL" ∧
      (binarySellOpp exMarket (55/100) (50/100) (min s1 s2)).profit_pct =
        (55/100 + 50/100) - 1 ∧
      (binarySellOpp exMarket (55/100) (50/100) (min s1 s2)).max_size =
        min s1 s2) ∧
    check_binary_arbitrage exMarket exYesBid ⟨[], [], "empty"⟩ = .ok [] :=
  ⟨((binary_sell_check exMarket exYesBid exNoBid rfl rfl).1
      (55/100) (50/100) rfl rfl).1 (by norm_num) (by norm_num [MIN_PROFIT_THRESHOLD]),
   (binary_sell_check exMarket exYesBid exNoBid rfl rfl).2.2 "empty"⟩

/-- C3: for every list of three or more (outcome, book) pairs over
well-formed books, if any book lacks a best ask the BUY branch of
`check_multi_outcome_arbitrage` is skipped entirely; if every book has a
best ask, their sum is below 1.0 and 1 − sum is at least the threshold, it
emits exactly one MULTI opportunity with profit 1 − sum and size the
minimum of all best-ask sizes (otherwise nothing); the SELL branch is
symmetric over best bids with sum strictly above 1.0. -/
theorem multi_outcome_check (q s : String) (books : List (String × OrderBook))
    (h3 : 3 ≤ books.length) (hwf : ∀ p ∈ books, p.2.wf = true) :
    ((∃ p ∈ books, p.2.best_ask = .ok none) →
      multiBuyOpps q books s = .ok []) ∧
    (∀ aval sval : String × OrderBook → ℚ,
      (∀ p ∈ books, p.2.best_ask = .ok (some (aval p))) →
      (∀ p ∈ books, p.2.best_ask_size = .ok (some (sval p))) →
      ((books.map aval).sum < 1 →
        MIN_PROFIT_THRESHOLD ≤ 1 - (books.map aval).sum →
        ∃ m : ℚ, multiBuyOpps q books s =
            .ok [multiBuyOpp q s ((books.map aval).sum) m
              (outcomeDetails books (books.map (fun p => some (aval p))))] ∧
          m ∈ books.map sval ∧ (∀ x ∈ books.map sval, m ≤ x) ∧
          (multiBuyOpp q s ((books.map aval).sum) m
            (outcomeDetails books
              (books.map (fun p => some (aval p))))).profit_pct =
            1 - (books.map aval).sum ∧
          (multiBuyOpp q s ((books.map aval).sum) m
            (outcomeDetails books
              (books.map (fun p => some (aval p))))).max_size = m) ∧
      (¬ ((books.map aval).sum < 1 ∧
          MIN_PROFIT_THRESHOLD ≤ 1 - (books.map aval).sum) →
        multiBuyOpps q books s = .ok [])) ∧
    (∀ bval szval : String × OrderBook → ℚ,
      (∀ p ∈ books, p.2.best_bid = .ok (some (bval p))) →
      (∀ p ∈ books, p.2.best_bid_size = .ok (some (szval p))) →
      (1 < (books.map bval).sum →
        MIN_PROFIT_THRESHOLD ≤ (books.map bval).sum - 1 →
        ∃ m : ℚ, multiSellOpps q books s =
            .ok [multiSellOpp q s ((books.map bval).sum) m
              (outcomeDetails books (books.map (fun p => some (bval p))))] ∧
          m ∈ books.map szval ∧ (∀ x ∈ books.map szval, m ≤ x) ∧
          (multiSellOpp q s ((books.map bval).sum) m
            (outcomeDetails books
              (books.map (fun p => some (bval p))))).profit_pct =
            (books.map bval).sum - 1 ∧
          (multiSellOpp q s ((books.map bval).sum) m
            (outcomeDetails books
              (books.map (fun p => some (bval p))))).max_size = m) ∧
      (¬ (1 < (books.map bval).sum ∧
          MIN_PROFIT_THRESHOLD ≤ (books.map bval).sum - 1) →
        multiSellOpps q books s = .ok [])) := by
  rcases books with _ | ⟨b0, bs⟩
  · exact absurd h3 (by simp)
  refine ⟨?_, ?_, ?_⟩
  · intro habs
    exact multiBuyOpps_skip (fun p hp => best_ask_isOk_of_wf (hwf p hp)) habs
  · intro aval sval ha hs
    constructor
    · intro h1 h2
      refine ⟨(bs.map sval).foldl min (sval b0), ?_, ?_, ?_, rfl, rfl⟩
      · rw [multiBuyOpps_eq ha hs, if_pos ⟨h1, h2⟩]
      · rw [List.map_cons]
        exact foldl_min_mem (bs.map sval) (sval b0)
      · intro x hx
        rw [List.map_cons] at hx
        exact foldl_min_le (bs.map sval) (sval b0) x hx
    · intro hneg
      rw [multiBuyOpps_eq ha hs, if_neg hneg]
  · intro bval szval hb hs
    constructor
    · intro h1 h2
      refine ⟨(bs.map szval).foldl min (szval b0), ?_, ?_, ?_, rfl, rfl⟩
      · rw [multiSellOpps_eq hb hs, if_pos ⟨h1, h2⟩]
      · rw [List.map_cons]
        exact foldl_min_mem (bs.map szval) (szval b0)
      · intro x hx
        rw [List.map_cons] at hx
        exact foldl_min_le (bs.map szval) (szval b0) x hx
    · intro hneg
      rw [multiSellOpps_eq hb hs, if_neg hneg]

/-- Size assignment of the three-outcome example: 50/60/70 by outcome. -/
def exSizeVal : String × OrderBook → ℚ :=
  fun p => if p.1 = "A" then 50 else if p.1 = "B" then 60 else 70

/-- Witness for C3 at the spec's example: three asks of 0.30 with sizes
50/60/70. -/
theorem multi_outcome_check_witness :
    ∃ m : ℚ, multiBuyOpps "mq" exBooks "ev" =
        .ok [multiBuyOpp "mq" "ev"
          ((exBooks.map (fun _ => (30:ℚ)/100)).sum) m
          (outcomeDetails exBooks
            (exBooks.map (fun _ => some ((30:ℚ)/100))))] ∧
      m ∈ exBooks.map exSizeVal ∧ (∀ x ∈ exBooks.map exSizeVal, m ≤ x) ∧
      (multiBuyOpp "mq" "ev" ((exBooks.map (fun _ => (30:ℚ)/100)).sum) m
        (outcomeDetails exBooks
          (exBooks.map (fun _ => some ((30:ℚ)/100))))).profit_pct =
        1 - (exBooks.map (fun _ => (30:ℚ)/100)).sum ∧
      (multiBuyOpp "mq" "ev" ((exBooks.map (fun _ => (30:ℚ)/100)).sum) m
        (outcomeDetails exBooks
          (exBooks.map (fun _ => some ((30:ℚ)/100))))).max_size = m :=
  ((multi_outcome_check "mq" "ev" exBooks (by decide)
      (by intro p hp; unfold exBooks at hp; fin_cases hp <;> rfl)).2.1
    (fun _ => (30:ℚ)/100) exSizeVal
    (by intro p hp; unfold exBooks at hp; fin_cases hp <;> rfl)
    (by intro p hp; unfold exBooks at hp; fin_cases hp <;> rfl)).1
    (by norm_num [exBooks]) (by norm_num [exBooks, MIN_PROFIT_THRESHOLD])

/-- C4: the threshold boundary is inclusive and comparisons are exact: in
all four checks (binary/multi, buy/sell) an opportunity is emitted exactly
when the side's strict 1.0 comparison holds and the profit fraction is
greater than or equal to `MIN_PROFIT_THRESHOLD`. -/
theorem threshold_boundary :
    (∀ (market : Market) (yb nb : OrderBook), yb.wf = true → nb.wf = true →
      ∀ ya na : ℚ, yb.best_ask = .ok (some ya) → nb.best_ask = .ok (some na) →
      ((∃ l, binaryBuyOpps market yb nb = .ok l ∧ l ≠ []) ↔
        (ya + na < 1 ∧ MIN_PROFIT_THRESHOLD ≤ 1 - (ya + na)))) ∧
    (∀ (market : Market) (yb nb : OrderBook), yb.wf = true → nb.wf = true →
      ∀ y n : ℚ, yb.best_bid = .ok (some y) → nb.best_bid = .ok (some n) →
      ((∃ l, binarySellOpps market yb nb = .ok l ∧ l ≠ []) ↔
        (1 < y + n ∧ MIN_PROFIT_THRESHOLD ≤ (y + n) - 1))) ∧
    (∀ (q s : String) (b0 : String × OrderBook)
      (bs : List (String × OrderBook)) (aval sval : String × OrderBook → ℚ),
      (∀ p ∈ b0 :: bs, p.2.best_ask = .ok (some (aval p))) →
      (∀ p ∈ b0 :: bs, p.2.best_ask_size = .ok (some (sval p))) →
      ((∃ l, multiBuyOpps q (b0 :: bs) s = .ok l ∧ l ≠ []) ↔
        (((b0 :: bs).map aval).sum < 1 ∧
          MIN_PROFIT_THRESHOLD ≤ 1 - ((b0 :: bs).map aval).sum))) ∧
    (∀ (q s : String) (b0 : String × OrderBook)
      (bs : List (String × OrderBook)) (bval szval : String × OrderBook → ℚ),
      (∀ p ∈ b0 :: bs, p.2.best_bid = .ok (some (bval p))) →
      (∀ p ∈ b0 :: bs, p.2.best_bid_size = .ok (some (szval p))) →
      ((∃ l, multiSellOpps q (b0 :: bs) s = .ok l ∧ l ≠ []) ↔
        (1 < ((b0 :: bs).map bval).sum ∧
          MIN_PROFIT_THRESHOLD ≤ ((b0 :: bs).map bval).sum - 1))) := by
  refine ⟨?_, ?_, ?_, ?_⟩
  · intro market yb nb hwy hwn ya na hya hna
    obtain ⟨s1, hs1⟩ := best_ask_size_of_wf hwy hya
    obtain ⟨s2, hs2⟩ := best_ask_size_of_wf hwn hna
    rw [binaryBuyOpps_eq market hya hna hs1 hs2]
    constructor
    · rintro ⟨l, hl, hne⟩
      by_contra hc
      rw [if_neg hc] at hl
      exact hne (Except.ok.inj hl).symm
    · intro hc
      exact ⟨_, by rw [if_pos hc], by simp⟩
  · intro market yb nb hwy hwn y n hy hn
    obtain ⟨s1, hs1⟩ := best_bid_size_of_wf hwy hy
    obtain ⟨s2, hs2⟩ := best_bid_size_of_wf hwn hn
    rw [binarySellOpps_eq market hy hn hs1 hs2]
    constructor
    · rintro ⟨l, hl, hne⟩
      by_contra hc
      rw [if_neg hc] at hl
      exact hne (Except.ok.inj hl).symm
    · intro hc
      exact ⟨_, by rw [if_pos hc], by simp⟩
  · intro q s b0 bs aval sval ha hs
    rw [multiBuyOpps_eq ha hs]
    constructor
    · rintro ⟨l, hl, hne⟩
      by_contra hc
      rw [if_neg hc] at hl
      exact hne (Except.ok.inj hl).symm
    · intro hc
      exact ⟨_, by rw [if_pos hc], by simp⟩
  · intro q s b0 bs bval szval hb hs
    rw [multiSellOpps_eq hb hs]
    constructor
    · rintro ⟨l, hl, hne⟩
      by_contra hc
      rw [if_neg hc] at hl
      exact hne (Except.ok.inj hl).symm
    · intro hc
      exact ⟨_, by rw [if_pos hc], by simp⟩

/-- Witness for C4 at the spec's boundary examples: combined ask 0.999
(profit exactly 0.001 = threshold) emits; combined ask 0.9995 (profit
0.0005, below threshold) does not. -/
theorem threshold_boundary_witness :
    (∃ l, binaryBuyOpps exMarket exYesBound exNoBound = .ok l ∧ l ≠ []) ∧
    ¬ (∃ l, binaryBuyOpps exMarket exYesBound exNoBelow = .ok l ∧ l ≠ []) :=
  ⟨(threshold_boundary.1 exMarket exYesBound exNoBound rfl rfl
      (499/1000) (1/2) rfl rfl).mpr
      ⟨by norm_num, by norm_num [MIN_PROFIT_THRESHOLD]⟩,
   fun h => by
    have hc := (threshold_boundary.1 exMarket exYesBound exNoBelow rfl rfl
      (499/1000) (5005/10000) rfl rfl).mp h
    rw [MIN_PROFIT_THRESHOLD] at hc
    have := hc.2
    norm_num at this⟩

theorem marketStep_binary {orderbooks : List (String × OrderBook)}
    {market : Market} {t0 t1 : Token} (ht : market.tokens = [t0, t1])
    (acc : List Opportunity) {yb nb : OrderBook} {l : List Opportunity}
    (hy : pyDictGet orderbooks t0.token_id = some yb)
    (hn : pyDictGet orderbooks t1.token_id = some nb)
    (hc : check_binary_arbitrage market yb nb = .ok l) :
    marketStep orderbooks acc market = .ok (acc ++ l) := by
  unfold marketStep
  rw [ht]
  rw [if_pos (show ([t0, t1] : List Token).length = 2 from rfl)]
  dsimp only
  rw [hy, hn]
  dsimp only
  rw [hc, ok_bind]
  rfl

/-- C6: the list returned by `scan_markets` is the stable descending sort of
the accumulated opportunity list: it is sorted by profit fraction
descending, it is a permutation of the discovered list, and any
profit-ordered sublist of the discovery order (in particular, any pair of
equal-profit opportunities in discovery order) stays in that relative order
in the output. -/
theorem scan_markets_ranking (fetch : ℕ → String → Option OrderBook)
    (markets : List Market) (pre : List Opportunity)
    (hpre : collectOpps (fetch_orderbooks_batch fetch (allTokenIds markets))
      markets = .ok pre) :
    scan_markets fetch markets = .ok (sortByProfitDesc pre) ∧
    (sortByProfitDesc pre).Pairwise
      (fun a b => b.profit_pct ≤ a.profit_pct) ∧
    (sortByProfitDesc pre).Perm pre ∧
    (∀ c : List Opportunity, c.Sublist pre →
      c.Pairwise (fun a b => b.profit_pct ≤ a.profit_pct) →
      c.Sublist (sortByProfitDesc pre)) := by
  have htrans : ∀ (a b c : Opportunity),
      decide (b.profit_pct ≤ a.profit_pct) = true →
      decide (c.profit_pct ≤ b.profit_pct) = true →
      decide (c.profit_pct ≤ a.profit_pct) = true := by
    intro a b c hab hbc
    exact decide_eq_true
      (le_trans (of_decide_eq_true hbc) (of_decide_eq_true hab))
  have htotal : ∀ (a b : Opportunity),
      (decide (b.profit_pct ≤ a.profit_pct) ||
        decide (a.profit_pct ≤ b.profit_pct)) = true := by
    intro a b
    rcases le_total a.profit_pct b.profit_pct with h | h
    · simp [h]
    · simp [h]
  refine ⟨?_, ?_, ?_, ?_⟩
  · show (collectOpps (fetch_orderbooks_batch fetch (allTokenIds markets))
        markets >>= fun opportunities => pure (sortByProfitDesc opportunities)) =
      Except.ok (sortByProfitDesc pre)
    rw [hpre, ok_bind]
    rfl
  · have hs := @List.sorted_mergeSort Opportunity
      (fun a b => decide (b.profit_pct ≤ a.profit_pct)) htrans htotal pre
    unfold sortByProfitDesc
    exact hs.imp of_decide_eq_true
  · exact List.mergeSort_perm pre _
  · intro c hsub hpw
    unfold sortByProfitDesc
    exact List.sublist_mergeSort htrans htotal
      (hpw.imp (fun h => decide_eq_true h)) hsub

/-- YES book with no crossing prices: bid 0.45, ask 0.55, sizes 10. -/
def exYesNoArb : OrderBook :=
  ⟨[RawEntry.ofPair (45/100) 10], [RawEntry.ofPair (55/100) 10], "ytok"⟩

/-- NO book with no crossing prices: bid 0.45, ask 0.50, sizes 10. -/
def exNoNoArb : OrderBook :=
  ⟨[RawEntry.ofPair (45/100) 10], [RawEntry.ofPair (50/100) 10], "ntok"⟩

/-- Transport oracle serving the two example books. -/
def exFetch : ℕ → String → Option OrderBook := fun _ t =>
  if t = "ytok" then some exYesNoArb
  else if t = "ntok" then some exNoNoArb
  else none

/-- Witness for C6: a one-market scan whose discovery list is empty. -/
theorem scan_markets_ranking_witness :
    collectOpps (fetch_orderbooks_batch exFetch (allTokenIds [exMarket]))
      [exMarket] = .ok [] ∧
    scan_markets exFetch [exMarket] = .ok (sortByProfitDesc []) := by
  have hy : pyDictGet (fetch_orderbooks_batch exFetch (allTokenIds [exMarket]))
      "ytok" = some exYesNoArb := by rfl
  have hn : pyDictGet (fetch_orderbooks_batch exFetch (allTokenIds [exMarket]))
      "ntok" = some exNoNoArb := by rfl
  have h1 : binaryBuyOpps exMarket exYesNoArb exNoNoArb = .ok [] := by
    rw [binaryBuyOpps_eq exMarket
      (rfl : exYesNoArb.best_ask = Except.ok (some (55/100)))
      (rfl : exNoNoArb.best_ask = Except.ok (some (50/100)))
      (rfl : exYesNoArb.best_ask_size = Except.ok (some 10))
      (rfl : exNoNoArb.best_ask_size = Except.ok (some 10))]
    rw [if_neg]
    rintro ⟨hlt, -⟩
    norm_num at hlt
  have h2 : binarySellOpps exMarket exYesNoArb exNoNoArb = .ok [] := by
    rw [binarySellOpps_eq exMarket
      (rfl : exYesNoArb.best_bid = Except.ok (some (45/100)))
      (rfl : exNoNoArb.best_bid = Except.ok (some (45/100)))
      (rfl : exYesNoArb.best_bid_size = Except.ok (some 10))
      (rfl : exNoNoArb.best_bid_size = Except.ok (some 10))]
    rw [if_neg]
    rintro ⟨hlt, -⟩
    norm_num at hlt
  have hcb : check_binary_arbitrage exMarket exYesNoArb exNoNoArb = .ok [] := by
    simpa using check_binary_eq h1 h2
  have hstep : marketStep
      (fetch_orderbooks_batch exFetch (allTokenIds [exMarket])) [] exMarket =
      .ok [] := by
    simpa using marketStep_binary
      (show exMarket.tokens = [⟨"ytok", "Yes"⟩, ⟨"ntok", "No"⟩] from rfl)
      [] hy hn hcb
  have hpre : collectOpps
      (fetch_orderbooks_batch exFetch (allTokenIds [exMarket])) [exMarket] =
      .ok [] := by
    unfold collectOpps
    rw [List.foldlM_cons, hstep, ok_bind, List.foldlM_nil]
    rfl
  exact ⟨hpre, (scan_markets_ranking exFetch [exMarket] [] hpre).1⟩

/-- C9: every MULTI opportunity emitted by the BUY branch carries the
aggregate best-ask sum in `yes_price` and 0 in `no_price`; every MULTI
opportunity emitted by the SELL branch carries the aggregate best-bid sum
in `no_price` and 0 in `yes_price` — the price fields hold side-specific
aggregate sums, and which field is meaningful depends on the detected
side. -/
theorem multi_price_overload (q s : String)
    (books : List (String × OrderBook)) :
    (∀ aval : String × OrderBook → ℚ,
      (∀ p ∈ books, p.2.best_ask = .ok (some (aval p))) →
      ∀ l, multiBuyOpps q books s = .ok l →
      ∀ o ∈ l, o.arb_type = "MULTI" ∧ o.yes_price = (books.map aval).sum ∧
        o.no_price = 0) ∧
    (∀ bval : String × OrderBook → ℚ,
      (∀ p ∈ books, p.2.best_bid = .ok (some (bval p))) →
      ∀ l, multiSellOpps q books s = .ok l →
      ∀ o ∈ l, o.arb_type = "MULTI" ∧ o.no_price = (books.map bval).sum ∧
        o.yes_price = 0) :=
  ⟨fun _ ha _ hl => multiBuy_fields ha hl,
   fun _ hb _ hl => multiSell_fields hb hl⟩

/-- Witness for C9: the three-outcome example emits one MULTI buy
opportunity whose `yes_price` is the ask sum 0.90 and whose `no_price`
is 0. -/
theorem multi_price_overload_witness :
    ∃ l, multiBuyOpps "mq" exBooks "ev" = .ok l ∧ l ≠ [] ∧
      ∀ o ∈ l, o.arb_type = "MULTI" ∧
        o.yes_price = (exBooks.map (fun _ => (30:ℚ)/100)).sum ∧
        o.no_price = 0 := by
  have ha : ∀ p ∈ (("A", (⟨[], [RawEntry.ofPair (30/100) 50], "t1"⟩ : OrderBook)) ::
      [("B", (⟨[], [RawEntry.ofPair (30/100) 60], "t2"⟩ : OrderBook)),
       ("C", (⟨[], [RawEntry.ofPair (30/100) 70], "t3"⟩ : OrderBook))]),
      p.2.best_ask = Except.ok (some ((30:ℚ)/100)) := by
    intro p hp
    fin_cases hp <;> rfl
  have hs : ∀ p ∈ (("A", (⟨[], [RawEntry.ofPair (30/100) 50], "t1"⟩ : OrderBook)) ::
      [("B", (⟨[], [RawEntry.ofPair (30/100) 60], "t2"⟩ : OrderBook)),
       ("C", (⟨[], [RawEntry.ofPair (30/100) 70], "t3"⟩ : OrderBook))]),
      p.2.best_ask_size = Except.ok (some (exSizeVal p)) := by
    intro p hp
    fin_cases hp <;> rfl
  have heq := multiBuyOpps_eq (q := "mq") (s := "ev") ha hs
  rw [if_pos (by constructor <;> norm_num [MIN_PROFIT_THRESHOLD])] at heq
  refine ⟨_, heq, by simp, ?_⟩
  exact (multi_price_overload "mq" "ev" exBooks).1
    (fun _ => (30:ℚ)/100) ha _ heq

/-- C5 (amended): for every duplicate-free list of N token identifiers of
which K scheduled retrievals fail, `fetch_orderbooks_batch` returns a
mapping with exactly N − K entries, containing only pairs produced by a
successful retrieval of their token; the function is total (no exception
reaches the caller). -/
theorem fetch_batch_partial_failure (fetch : ℕ → String → Option OrderBook)
    (token_ids : List String) (hnd : token_ids.Nodup) :
    (fetch_orderbooks_batch fetch token_ids).length =
      token_ids.length -
        (token_ids.enum.filter (fun p => (fetch p.1 p.2).isNone)).length ∧
    ∀ kv ∈ fetch_orderbooks_batch fetch token_ids,
      ∃ i, ∃ hi : i < token_ids.length,
        token_ids[i] = kv.1 ∧ fetch i kv.1 = some kv.2 := by
  have hkeys : (token_ids.enum.map
      (fun p => (p.2, fetch p.1 p.2))).map Prod.fst = token_ids := by
    rw [List.map_map]
    exact List.enum_map_snd token_ids
  have hfresh := foldl_batchStep_fresh
    (token_ids.enum.map (fun p => (p.2, fetch p.1 p.2))) []
    (by rw [List.map_nil, List.nil_append, hkeys]; exact hnd)
  have hbatch : fetch_orderbooks_batch fetch token_ids =
      (token_ids.enum.map (fun p => (p.2, fetch p.1 p.2))).filterMap
        (fun r => r.2.map (fun ob => (r.1, ob))) := by
    unfold fetch_orderbooks_batch
    rw [hfresh, List.nil_append]
  constructor
  · rw [hbatch, length_filterMap_pairs, List.filter_map, List.length_map]
    have hpart := List.length_eq_length_filter_add
      (l := token_ids.enum) (fun p => (fetch p.1 p.2).isSome)
    have hcongr : token_ids.enum.filter
        (fun x => !(fun p => (fetch p.1 p.2).isSome) x) =
        token_ids.enum.filter (fun p => (fetch p.1 p.2).isNone) := by
      apply List.filter_congr
      intro x _
      cases hfx : fetch x.1 x.2 <;> simp [hfx]
    rw [hcongr] at hpart
    have hlen : token_ids.enum.length = token_ids.length :=
      List.enum_length
    have : (token_ids.enum.filter
        ((fun r => r.2.isSome) ∘ fun p => (p.2, fetch p.1 p.2))).length =
        (token_ids.enum.filter (fun p => (fetch p.1 p.2).isSome)).length :=
      rfl
    rw [this]
    omega
  · intro kv hkv
    rw [hbatch] at hkv
    obtain ⟨r, hr, hrkv⟩ := List.mem_filterMap.mp hkv
    obtain ⟨ob, ho, hob⟩ := Option.map_eq_some'.mp hrkv
    obtain ⟨p, hp, hap⟩ := List.mem_map.mp hr
    rcases p with ⟨i, t⟩
    have hmem := List.mem_enum hp
    refine ⟨i, hmem.1, ?_, ?_⟩
    · rw [← hmem.2, ← hob, ← hap]
    · have ht : kv.1 = t := by rw [← hob, ← hap]
      have hfi : fetch i t = some ob := by
        have h2 := congrArg Prod.snd hap
        rw [ho] at h2
        exact h2
      have hkv2 : kv.2 = ob := by rw [← hob]
      rw [ht, hkv2]
      exact hfi

/-- Transport oracle for the partial-failure witness: only token "a"
succeeds. -/
def exPartialFetch : ℕ → String → Option OrderBook :=
  fun _ t => if t = "a" then some ⟨[], [], "a"⟩ else none

/-- Witness for C5: two distinct tokens, one failing retrieval, one entry. -/
theorem fetch_batch_partial_failure_witness :
    (["a", "b"] : List String).Nodup ∧
    (fetch_orderbooks_batch exPartialFetch ["a", "b"]).length =
      (["a", "b"] : List String).length -
        ((["a", "b"] : List String).enum.filter
          (fun p => (exPartialFetch p.1 p.2).isNone)).length :=
  ⟨by decide,
   (fetch_batch_partial_failure exPartialFetch ["a", "b"] (by decide)).1⟩

/-- Transport oracle that succeeds on every request with the same book. -/
def exDupFetch : ℕ → String → Option OrderBook :=
  fun _ _ => some ⟨[], [], "tok"⟩

/-- Counterexample to C5 as stated: with the duplicate input
["tok", "tok"] and no failures, the mapping has 1 entry, not N − K = 2. -/
theorem fetch_batch_partial_failure_cex :
    (fetch_orderbooks_batch exDupFetch ["tok", "tok"]).length ≠
      (["tok", "tok"] : List String).length -
        ((["tok", "tok"] : List String).enum.filter
          (fun p => (exDupFetch p.1 p.2).isNone)).length := by
  decide

/-- C10: the mapping returned by `fetch_orderbooks_batch` has pairwise
distinct keys, each drawn from the input list; a duplicated identifier
contributes at most one entry, with the later successful result
overwriting the earlier one, so with duplicates the entry count can be
strictly below the number of successful retrievals. -/
theorem batch_mapping_structure :
    (∀ (fetch : ℕ → String → Option OrderBook) (token_ids : List String),
      ((fetch_orderbooks_batch fetch token_ids).map Prod.fst).Nodup ∧
      ∀ kv ∈ fetch_orderbooks_batch fetch token_ids, kv.1 ∈ token_ids) ∧
    (∀ (fetch : ℕ → String → Option OrderBook) (t : String)
      (b0 b1 : OrderBook), fetch 0 t = some b0 → fetch 1 t = some b1 →
      fetch_orderbooks_batch fetch [t, t] = [(t, b1)]) ∧
    (∃ (fetch : ℕ → String → Option OrderBook) (tids : List String),
      (fetch_orderbooks_batch fetch tids).length <
        (tids.enum.filter (fun p => (fetch p.1 p.2).isSome)).length) := by
  refine ⟨?_, ?_, ?_⟩
  · intro fetch tids
    constructor
    · exact foldl_batchStep_keys_nodup _ [] (by simp)
    · intro kv hkv
      rcases foldl_batchStep_mem _ [] kv hkv with h | h
      · cases h
      · rw [show (tids.enum.map
            (fun p => (p.2, fetch p.1 p.2))).map Prod.fst = tids from by
          rw [List.map_map]; exact List.enum_map_snd tids] at h
        exact h
  · intro fetch t b0 b1 h0 h1
    show ((([t, t] : List String).enum.map
      (fun p => (p.2, fetch p.1 p.2))).foldl batchStep []) = [(t, b1)]
    rw [show ([t, t] : List String).enum = [(0, t), (1, t)] from rfl]
    rw [List.map_cons, List.map_cons, List.map_nil]
    dsimp only
    rw [h0, h1]
    rw [List.foldl_cons, List.foldl_cons, List.foldl_nil]
    have hb1 : batchStep ([] : List (String × OrderBook)) (t, some b0) =
        [(t, b0)] := rfl
    rw [hb1]
    show pyDictInsert [(t, b0)] t b1 = [(t, b1)]
    unfold pyDictInsert
    rw [if_pos (by simp)]
    simp
  · exact ⟨fun _ _ => some ⟨[], [], "tok"⟩, ["tok", "tok"], by decide⟩

/-- C7 (amended): construction sorts bids descending and asks ascending by
numeric price and leaves entries untouched otherwise (the ladders are
permutations of the inputs, so size values are never altered); an entry
whose price KEY is absent sorts with default key 0 and construction
succeeds; an entry with a present but unparsable price string makes
construction raise ValueError instead of defaulting to 0. -/
theorem fromRaw_sorts (bids asks : List RawEntry) (tid : String)
    (hb : ∀ e ∈ bids, e.price ≠ some none)
    (ha : ∀ e ∈ asks, e.price ≠ some none) :
    ∃ b : OrderBook, OrderBook.fromRaw bids asks tid = .ok b ∧
      b.bids.Pairwise (fun e₁ e₂ => priceKeyVal e₂ ≤ priceKeyVal e₁) ∧
      b.asks.Pairwise (fun e₁ e₂ => priceKeyVal e₁ ≤ priceKeyVal e₂) ∧
      b.bids.Perm bids ∧ b.asks.Perm asks ∧ b.token_id = tid := by
  refine ⟨⟨(((bids.map (fun e => (priceKeyVal e, e))).mergeSort
      (fun a b => decide (b.1 ≤ a.1))).map Prod.snd),
    (((asks.map (fun e => (priceKeyVal e, e))).mergeSort
      (fun a b => decide (a.1 ≤ b.1))).map Prod.snd), tid⟩,
    ?_, mergeSortTagged_desc_pairwise bids, mergeSortTagged_asc_pairwise asks,
    mergeSortTagged_perm bids _, mergeSortTagged_perm asks _, rfl⟩
  unfold OrderBook.fromRaw
  rw [pySortedByRev_eq hb, ok_bind, pySortedBy_eq ha, ok_bind]
  rfl

/-- Witness for C7 at the repository's own sorting test: three unsorted
bids and asks. -/
theorem fromRaw_sorts_witness :
    (∀ e ∈ [RawEntry.ofPair (30/100) 10, RawEntry.ofPair (50/100) 20,
        RawEntry.ofPair (40/100) 15], e.price ≠ some none) ∧
    ∃ b : OrderBook, OrderBook.fromRaw
        [RawEntry.ofPair (30/100) 10, RawEntry.ofPair (50/100) 20,
          RawEntry.ofPair (40/100) 15]
        [RawEntry.ofPair (70/100) 25, RawEntry.ofPair (55/100) 30,
          RawEntry.ofPair (60/100) 35] "tok" = .ok b ∧
      b.bids.Pairwise (fun e₁ e₂ => priceKeyVal e₂ ≤ priceKeyVal e₁) ∧
      b.asks.Pairwise (fun e₁ e₂ => priceKeyVal e₁ ≤ priceKeyVal e₂) ∧
      b.bids.Perm [RawEntry.ofPair (30/100) 10, RawEntry.ofPair (50/100) 20,
        RawEntry.ofPair (40/100) 15] ∧
      b.asks.Perm [RawEntry.ofPair (70/100) 25, RawEntry.ofPair (55/100) 30,
        RawEntry.ofPair (60/100) 35] ∧ b.token_id = "tok" :=
  ⟨by decide, fromRaw_sorts _ _ "tok" (by decide) (by decide)⟩

/-- Counterexample to C7 as stated: an entry whose price string is present
but unparsable does not default to 0 — construction raises ValueError. -/
theorem fromRaw_sorts_cex :
    OrderBook.fromRaw [{ price := some none, size := some (some 5) }] []
      "tok" = .error .valueError := by
  rfl

/-- C8 (amended): on a well-formed book the four best-price accessors never
throw, return `none` exactly when the respective ladder is empty, and
otherwise the price/size of the first ladder entry; absence (`none`) is a
distinct value from a zero price. -/
theorem best_price_accessors (b : OrderBook) (hwf : b.wf = true) :
    ((∃ v, b.best_bid = .ok v) ∧ (∃ v, b.best_bid_size = .ok v) ∧
      (∃ v, b.best_ask = .ok v) ∧ (∃ v, b.best_ask_size = .ok v)) ∧
    (b.best_bid = .ok none ↔ b.bids = []) ∧
    (b.best_bid_size = .ok none ↔ b.bids = []) ∧
    (b.best_ask = .ok none ↔ b.asks = []) ∧
    (b.best_ask_size = .ok none ↔ b.asks = []) ∧
    (∀ e rest, b.bids = e :: rest →
      ∃ q s, e.price = some (some q) ∧ e.size = some (some s) ∧
        b.best_bid = .ok (some q) ∧ b.best_bid_size = .ok (some s)) ∧
    (∀ e rest, b.asks = e :: rest →
      ∃ q s, e.price = some (some q) ∧ e.size = some (some s) ∧
        b.best_ask = .ok (some q) ∧ b.best_ask_size = .ok (some s)) := by
  have hbid := best_bid_of_wf hwf
  have hask := best_ask_of_wf hwf
  refine ⟨⟨?_, ?_, ?_, ?_⟩, ?_, ?_, ?_, ?_, ?_, ?_⟩
  · rcases hbid with ⟨_, hv, _⟩ | ⟨_, _, q, _, _, _, _, hv, _⟩
    · exact ⟨none, hv⟩
    · exact ⟨some q, hv⟩
  · rcases hbid with ⟨_, _, hvs⟩ | ⟨_, _, _, s, _, _, _, _, hvs⟩
    · exact ⟨none, hvs⟩
    · exact ⟨some s, hvs⟩
  · rcases hask with ⟨_, hv, _⟩ | ⟨_, _, q, _, _, _, _, hv, _⟩
    · exact ⟨none, hv⟩
    · exact ⟨some q, hv⟩
  · rcases hask with ⟨_, _, hvs⟩ | ⟨_, _, _, s, _, _, _, _, hvs⟩
    · exact ⟨none, hvs⟩
    · exact ⟨some s, hvs⟩
  · rcases hbid with ⟨he, hv, _⟩ | ⟨e, rest, q, s, hk, _, _, hv, _⟩
    · rw [he, hv]; simp
    · rw [hk, hv]; simp
  · rcases hbid with ⟨he, _, hvs⟩ | ⟨e, rest, q, s, hk, _, _, _, hvs⟩
    · rw [he, hvs]; simp
    · rw [hk, hvs]; simp
  · rcases hask with ⟨he, hv, _⟩ | ⟨e, rest, q, s, hk, _, _, hv, _⟩
    · rw [he, hv]; simp
    · rw [hk, hv]; simp
  · rcases hask with ⟨he, _, hvs⟩ | ⟨e, rest, q, s, hk, _, _, _, hvs⟩
    · rw [he, hvs]; simp
    · rw [hk, hvs]; simp
  · intro e rest hcons
    rcases hbid with ⟨he, _, _⟩ | ⟨e0, rest0, q, s, hk, hq, hsz, hv, hvs⟩
    · rw [he] at hcons; cases hcons
    · have hee := hk.symm.trans hcons
      have he0 : e0 = e := (List.cons.inj hee).1
      subst he0
      exact ⟨q, s, hq, hsz, hv, hvs⟩
  · intro e rest hcons
    rcases hask with ⟨he, _, _⟩ | ⟨e0, rest0, q, s, hk, hq, hsz, hv, hvs⟩
    · rw [he] at hcons; cases hcons
    · have hee := hk.symm.trans hcons
      have he0 : e0 = e := (List.cons.inj hee).1
      subst he0
      exact ⟨q, s, hq, hsz, hv, hvs⟩

/-- Witness for C8 on a well-formed book with one bid and one ask. -/
theorem best_price_accessors_witness :
    exYesNoArb.wf = true ∧
    (exYesNoArb.best_bid = .ok none ↔ exYesNoArb.bids = []) ∧
    (exYesNoArb.best_ask = .ok none ↔ exYesNoArb.asks = []) :=
  ⟨rfl, (best_price_accessors exYesNoArb rfl).2.1,
    (best_price_accessors exYesNoArb rfl).2.2.2.1⟩

/-- Counterexample to C8 as stated: a book whose first bid entry lacks the
price key constructs fine, its bid ladder is nonempty, yet `best_bid`
raises KeyError instead of returning a value. -/
theorem best_price_accessors_cex :
    OrderBook.fromRaw [{ price := none, size := some (some 10) }] [] "tok" =
      .ok ⟨[{ price := none, size := some (some 10) }], [], "tok"⟩ ∧
    ([{ price := none, size := some (some 10) }] : List RawEntry) ≠ [] ∧
    OrderBook.best_bid
      ⟨[{ price := none, size := some (some 10) }], [], "tok"⟩ =
      .error .keyError := by
  refine ⟨?_, by simp, rfl⟩
  unfold OrderBook.fromRaw
  rw [pySortedByRev_eq (by decide), ok_bind,
    pySortedBy_eq (fun e he => by cases he), ok_bind]
  simp [List.mergeSort_singleton, List.mergeSort_nil]
  rfl

/-- Witness for C10: a duplicated token with two successful retrievals
yields the single overwritten entry. -/
theorem batch_mapping_structure_witness :
    fetch_orderbooks_batch exDupFetch ["tok", "tok"] =
      [("tok", ⟨[], [], "tok"⟩)] :=
  batch_mapping_structure.2.1 exDupFetch "tok" ⟨[], [], "tok"⟩ ⟨[], [], "tok"⟩
    rfl rfl
